import Mathlib

/-!
# Verification of the lengine runtime core

A shallow embedding of the entity-component world store, the physics and
collision system, the AI behaviour controller and the grid pathfinder of
the lengine 2D game engine, together with proofs that settle the claims
of the specification against this embedding.

Conventions of the embedding:

* `f32` values are modelled as exact rationals (`ℚ`).  Every `f32` value
  is a rational number; we idealise the arithmetic as exact, which is the
  usual shallow model for these claims (none of them is about rounding).
* The transcendental `f32` operations (`sin`, `cos`, `atan2`, `sqrt`) and
  the constant `π` are modelled by an unspecified parameter bundle
  `Trig`.  All theorems are proved for every interpretation of this
  bundle, in particular for the true `f32` one; witnesses instantiate it
  with a concrete computable bundle.
* `usize`/`u32` become `Nat`, `i32` becomes `Int`.  Where an overflow or
  underflow of machine arithmetic is reachable it is modelled explicitly
  (see `AISystem.run`, simulated idle branch).
* Fallible operations (`unwrap`, slice indexing) are modelled in the
  `Option` monad: `none` is a panic.
* `HashSet<String>` becomes `Finset String`; `Vec` becomes `List`;
  `Instant` timestamps become rational instants, with `elapsed`
  computed as `now - stamp` against an explicit clock `now`.
-/

namespace Lengine

/-- Interpretation of the transcendental `f32` operations used by the
engine (`vector.rs` uses `sin`/`cos`/`atan2`/`sqrt`, `physics` uses `π`).
Each theorem below is proved for an arbitrary interpretation. -/
structure Trig where
  cos : ℚ → ℚ
  sin : ℚ → ℚ
  atan2 : ℚ → ℚ → ℚ
  sqrt : ℚ → ℚ
  pi : ℚ

/-- A concrete trivial interpretation, used only by witnesses. -/
def trig0 : Trig := ⟨fun _ => 0, fun _ => 0, fun _ _ => 0, fun _ => 0, 0⟩

/-- A concrete interpretation whose square root is the constant `5`,
used by witnesses that need a large distance value. -/
def trig5 : Trig := ⟨fun _ => 0, fun _ => 0, fun _ _ => 0, fun _ => 5, 0⟩

/-! ## `src/vector.rs` — polar vectors -/

/-- `Vector` from `src/vector.rs`: polar direction (radians) and magnitude. -/
structure Vector where
  dir : ℚ
  mag : ℚ
deriving DecidableEq

namespace Vector

/-- `Vector::zero`. -/
def zero : Vector := ⟨0, 0⟩

/-- `Vector::from_components`. -/
def from_components (T : Trig) (x y : ℚ) : Vector :=
  ⟨T.atan2 y x, T.sqrt (x ^ 2 + y ^ 2)⟩

/-- `Vector::x`: `mag * dir.cos()`. -/
def x (v : Vector) (T : Trig) : ℚ := v.mag * T.cos v.dir

/-- `Vector::y`: `mag * dir.sin()`. -/
def y (v : Vector) (T : Trig) : ℚ := v.mag * T.sin v.dir

/-- `impl Mul<f32> for Vector` (`src/vector.rs` lines 83-92):
same direction, scaled magnitude. -/
def mul (v : Vector) (rhs : ℚ) : Vector := ⟨v.dir, v.mag * rhs⟩

end Vector

/-! ## `src/geometry.rs` — rectangles and positions -/

/-- `Rect` from `src/geometry.rs`: `x y : f32`, `w h : u32`. -/
structure Rect where
  x : ℚ
  y : ℚ
  w : Nat
  h : Nat
deriving DecidableEq

/-- `PositionComponent` from `src/geometry.rs`. -/
structure PositionComponent where
  x : ℚ
  y : ℚ
deriving DecidableEq

namespace Rect

/-- `Rect::has_intersection` (`src/geometry.rs` lines 24-44), with the
source's strict/non-strict comparisons kept exactly. -/
def has_intersection (self other : Rect) : Bool :=
  let left := self.x
  let right := self.x + (self.w : ℚ)
  let top := self.y
  let bottom := self.y + (self.h : ℚ)
  let o_left := other.x
  let o_right := other.x + (other.w : ℚ)
  let o_top := other.y
  let o_bottom := other.y + (other.h : ℚ)
  if right ≤ o_left ∨ o_right ≤ left then false
  else if top ≥ o_bottom ∨ o_top ≥ bottom then false
  else true

/-- `Rect::after_position` (`src/geometry.rs` lines 53-58). -/
def after_position (self : Rect) (pos : PositionComponent) : Rect :=
  { self with x := self.x + pos.x, y := self.y + pos.y }

/-- `Rect::after_depth` (`src/geometry.rs` lines 61-66):
`y += h as f32 - d as f32; h = d`. -/
def after_depth (self : Rect) (d : Nat) : Rect :=
  { self with y := self.y + ((self.h : ℚ) - (d : ℚ)), h := d }

end Rect

/-- `PositionComponent::apply_vector` (`src/geometry.rs` lines 93-96). -/
def PositionComponent.apply_vector (p : PositionComponent) (T : Trig)
    (vec : Vector) : PositionComponent :=
  ⟨p.x + vec.x T, p.y + vec.y T⟩

/-! ## Components stored by the world -/

/-- Modelled from the spec: `PhysicsComponent` (spec §3) — its defining
revision of `physics.rs` is not in `src/` (the `physics.rs` present is an
older revision defining `EntityPhysicsState`), but its fields are fixed
by the spec and by its callers `ai.rs`, `parser.rs` and `world.rs`:
a `hitbox` rectangle, a `depth` for footprints, a `physical` flag and a
polar `velocity`. -/
structure PhysicsComponent where
  hitbox : Rect
  depth : Nat
  physical : Bool
  velocity : Vector
deriving DecidableEq

/-- `GraphicsComponent` from `src/graphics.rs` (lines 20-29); the SDL
texture fields are not representable and irrelevant to the claims, so
only `texture_id`, `renderbox` and `flipped` are carried. -/
structure GraphicsComponent where
  texture_id : Nat
  renderbox : Rect
  flipped : Bool
deriving DecidableEq

/-- `AnimationComponent` from `src/animation.rs`; its payload (texture
animations) is irrelevant to every claim and is not carried. -/
structure AnimationComponent where
  deriving DecidableEq

/-- `ActionComponent` from `src/state.rs`; its payload (scripted action
sequences) is irrelevant to every claim and is not carried. -/
structure ActionComponent where
  deriving DecidableEq

/-! ## `src/world.rs` — the entity-component store -/

/-- `World` from `src/world.rs`: parallel per-entity containers.  The
texture manager, effects, dialogs and background fields are external
collaborators and are not carried.  `current_world` is the loaded-scene
name: it is read by `AISystem::run` (`ai.rs`) and described by the spec's
multi-scene world store; the `world.rs` revision in `src/` predates it. -/
structure World where
  current_world : String
  states : List (Finset String)
  positions : List (Option PositionComponent)
  physics : List (Option PhysicsComponent)
  graphics : List (Option GraphicsComponent)
  animations : List (Option AnimationComponent)
  actions : List (Option ActionComponent)
deriving DecidableEq

namespace World

/-- `World::add_entity` (`src/world.rs` lines 74-89): pushes a fresh
empty tag set and the given optional components onto every container and
returns `states.len() - 1`. -/
def add_entity (w : World) (position : Option PositionComponent)
    (physics : Option PhysicsComponent) (graphics : Option GraphicsComponent)
    (animation : Option AnimationComponent) (actions : Option ActionComponent) :
    World × Nat :=
  let w2 : World :=
    { w with
      states := w.states ++ [∅]
      positions := w.positions ++ [position]
      physics := w.physics ++ [physics]
      graphics := w.graphics ++ [graphics]
      animations := w.animations ++ [animation]
      actions := w.actions ++ [actions] }
  (w2, w2.states.length - 1)

/-- The parallel-array invariant (spec §3): all component containers have
the length of the tag-set container. -/
def wf (w : World) : Prop :=
  w.positions.length = w.states.length ∧
  w.physics.length = w.states.length ∧
  w.graphics.length = w.states.length ∧
  w.animations.length = w.states.length ∧
  w.actions.length = w.states.length

instance (w : World) : Decidable w.wf := by
  unfold wf
  infer_instance

/-- `World::add_entity_state` (`src/world.rs` lines 280-282). -/
def add_entity_state (w : World) (id : Nat) (state : String) : World :=
  { w with states := w.states.set id (insert state (w.states.getD id ∅)) }

/-- `World::remove_entity_state` (`src/world.rs` lines 285-287). -/
def remove_entity_state (w : World) (id : Nat) (state : String) : World :=
  { w with states := w.states.set id ((w.states.getD id ∅).erase state) }

end World

/-! ## `src/tree.rs` — parent-pointer tree -/

/-- `Node<T>` from `src/tree.rs`. -/
structure TreeNode (T : Type) where
  parent : Option Nat
  val : T
deriving DecidableEq

/-- `Tree<T>` from `src/tree.rs`: an arena of parent-pointer nodes. -/
structure Tree (T : Type) where
  arena : List (TreeNode T)
deriving DecidableEq

namespace Tree

variable {T : Type}

/-- `Tree::new`. -/
def new (root : T) : Tree T := ⟨[⟨none, root⟩]⟩

/-- `Tree::insert` (`src/tree.rs` lines 19-26): appends a node whose
parent is `parent` and returns its index. -/
def insert (t : Tree T) (parent : Nat) (val : T) : Tree T × Nat :=
  (⟨t.arena ++ [⟨some parent, val⟩]⟩, t.arena.length)

/-- The parent-link walk of `Tree::path_to`, prepending each visited
value; the source's `while let` loop is modelled with fuel (a cyclic
parent chain would not terminate in the source either), and arena
indexing panics are `none`.  On every tree built by `insert` from `new`
parents point strictly downward, so fuel `t.arena.length` always
suffices. -/
def pathToGo (t : Tree T) : Nat → Nat → List T → Option (List T)
  | fuel, index, acc =>
    match t.arena.get? index with
    | none => none
    | some node =>
      match node.parent with
      | none => some (node.val :: acc)
      | some parent =>
        match fuel with
        | 0 => none
        | fuel + 1 => pathToGo t fuel parent (node.val :: acc)

/-- `Tree::path_to` (`src/tree.rs` lines 32-43): the root-first list of
values from the root to `index`. -/
def path_to (t : Tree T) (index : Nat) : Option (List T) :=
  pathToGo t t.arena.length index []

end Tree

/-! ## `src/pathfinding.rs` and `src/priority_queue.rs` -/

/-- `Node` from `src/pathfinding.rs`: `(tree_index, cost, x, y)` with
`usize` index, `u32` cost, `i32` coordinates. -/
structure Node where
  id : Nat
  cost : Nat
  x : Int
  y : Int
deriving DecidableEq

/-- `PriorityQueue` from `src/priority_queue.rs`. -/
structure PriorityQueue where
  nodes : List Node
deriving DecidableEq

namespace PriorityQueue

/-- `PriorityQueue::new`. -/
def new : PriorityQueue := ⟨[]⟩

/-- The loop of Rust's `slice::binary_search_by` as invoked by
`PriorityQueue::binary_search` (`src/priority_queue.rs` lines 23-36).
The comparator passed by the source returns `Less` when the *probed*
element's cost exceeds the inserted cost `c`, i.e. it is inverted with
respect to ascending order, so the probe moves right past larger costs.
`Ok(e) | Err(e) => e` in the source collapses both outcomes to the
returned index.  The loop is modelled with fuel (the interval shrinks
every iteration, so fuel `ns.length + 1 ≥ right - left + 1` always
suffices); out-of-range probes (unreachable) return `left`. -/
def bsLoop (c : Nat) (ns : List Node) : Nat → Nat → Nat → Nat
  | 0, left, _ => left
  | fuel + 1, left, right =>
    if left < right then
      let mid := left + (right - left) / 2
      match ns.get? mid with
      | none => left
      | some node =>
        if c < node.cost then bsLoop c ns fuel (mid + 1) right
        else if node.cost < c then bsLoop c ns fuel left mid
        else mid
    else left

/-- `PriorityQueue::binary_search`. -/
def binary_search (q : PriorityQueue) (n : Node) : Nat :=
  bsLoop n.cost q.nodes (q.nodes.length + 1) 0 q.nodes.length

/-- `PriorityQueue::push` (`src/priority_queue.rs` lines 17-20): insert
at the binary-searched position. -/
def push (q : PriorityQueue) (n : Node) : PriorityQueue :=
  ⟨q.nodes.insertIdx (q.binary_search n) n⟩

/-- `PriorityQueue::pop` (`src/priority_queue.rs` lines 39-41):
`Vec::pop`, removing and returning the **last** element. -/
def pop (q : PriorityQueue) : Option (Node × PriorityQueue) :=
  match q.nodes.getLast? with
  | none => none
  | some n => some (n, ⟨q.nodes.dropLast⟩)

/-- `PriorityQueue::index_of` (`src/priority_queue.rs` lines 44-46):
first index whose node has the same point. -/
def index_of (q : PriorityQueue) (n : Node) : Option Nat :=
  q.nodes.findIdx? (fun node => node.x == n.x && node.y == n.y)

/-- `PriorityQueue::remove`. -/
def remove (q : PriorityQueue) (i : Nat) : PriorityQueue :=
  ⟨q.nodes.eraseIdx i⟩

/-- `PriorityQueue::insert_or_replace` (`src/priority_queue.rs` lines
54-63). -/
def insert_or_replace (q : PriorityQueue) (n : Node) : PriorityQueue :=
  match q.index_of n with
  | some i =>
      if n.cost < (q.nodes.getD i ⟨0, 0, 0, 0⟩).cost then (q.remove i).push n
      else q
  | none => q.push n

/-- Sortedness of a queue node list by *descending* cost — the order the
source's inverted binary-search comparator actually maintains. -/
def sortedDesc (l : List Node) : Prop :=
  List.Pairwise (fun a b : Node => b.cost ≤ a.cost) l

instance (l : List Node) : Decidable (sortedDesc l) := by
  unfold sortedDesc
  infer_instance

/-- Queues reachable from `new` using only `push` and
`insert_or_replace`. -/
inductive Built : PriorityQueue → Prop
  | new : Built PriorityQueue.new
  | push (q : PriorityQueue) (n : Node) : Built q → Built (q.push n)
  | insert_or_replace (q : PriorityQueue) (n : Node) :
      Built q → Built (q.insert_or_replace n)

end PriorityQueue

/-- Fuel-indexed upward scan computing the integer floor square root
(`isqrt_eq_sqrt` below proves it equal to `Nat.sqrt`; a structural
definition is used so that concrete searches evaluate). -/
def isqrtGo (n : Nat) : Nat → Nat → Nat
  | 0, k => k
  | fuel + 1, k => if (k + 1) * (k + 1) ≤ n then isqrtGo n fuel (k + 1) else k

/-- Integer floor square root. -/
def isqrt (n : Nat) : Nat := isqrtGo n n 0

/-- `dist` from `src/pathfinding.rs` lines 63-65: the straight-line
distance `sqrt((y1-y0)² + (x1-x0)²)` computed in `f32` and truncated by
`as u32`.  For an exactly represented non-negative integer radicand this
is the integer floor square root. -/
def dist (x0 y0 x1 y1 : Int) : Nat :=
  isqrt ((y1 - y0) ^ 2 + (x1 - x0) ^ 2).toNat

/-- The 8 directions `(i, j)` of the expansion double loop of
`shortest_path_segment` (lines 41-57), in source iteration order, with
`(0, 0)` skipped by the `continue`. -/
def dirs : List (Int × Int) :=
  [(-1, -1), (-1, 0), (-1, 1), (0, -1), (0, 1), (1, -1), (1, 0), (1, 1)]

/-- The state threaded through the `while let` loop of
`shortest_path_segment`. -/
structure SearchState where
  tree : Tree (Int × Int)
  queue : PriorityQueue
  visits : Finset (Int × Int)

/-- One iteration of the expansion double loop of
`shortest_path_segment` (lines 41-57): for direction `d`, skip the
point if visited, otherwise insert a tree child and enqueue it with
cost `curr_cost + 1 + dist(x, y, to)` — the distance term is taken from
the expanded node `(x, y)`, not from the new point. -/
def expandStep (goal : Int × Int) (delta : Int) (node : Nat)
    (curr_cost : Nat) (x y : Int) (visits : Finset (Int × Int))
    (acc : Tree (Int × Int) × PriorityQueue) (d : Int × Int) :
    Tree (Int × Int) × PriorityQueue :=
  let new_x := x + delta * d.1
  let new_y := y + delta * d.2
  if (new_x, new_y) ∈ visits then acc
  else
    let cost := curr_cost + 1 + dist x y goal.1 goal.2
    let ins := acc.1.insert node (new_x, new_y)
    (ins.1, acc.2.insert_or_replace ⟨ins.2, cost, new_x, new_y⟩)

/-- The full expansion of one dequeued node over the eight directions. -/
def expand (goal : Int × Int) (delta : Int) (node : Nat) (curr_cost : Nat)
    (x y : Int) (visits : Finset (Int × Int)) (tree : Tree (Int × Int))
    (queue : PriorityQueue) : Tree (Int × Int) × PriorityQueue :=
  dirs.foldl (expandStep goal delta node curr_cost x y visits) (tree, queue)

/-- Outcome of `shortest_path_segment`: `success` is `Some(step)`,
`exhausted` is `None` (frontier emptied), `panic` a failed indexing
(unreachable on reachable states), `outOfFuel` insufficient fuel. -/
inductive SearchOutcome where
  | success (step : Int × Int)
  | exhausted
  | panic
  | outOfFuel
deriving DecidableEq

/-- The `while let Some(..) = queue.pop()` loop of
`shortest_path_segment` (lines 30-58), fuel-indexed: pop a node, record
its point as visited, return the head of the parent-pointer path if the
node is within `delta` (cast `as u32`) of the goal, otherwise expand its
eight neighbours. -/
def searchLoop (goal : Int × Int) (delta : Int) : Nat → SearchState → SearchOutcome
  | 0, _ => .outOfFuel
  | fuel + 1, st =>
    match st.queue.pop with
    | none => .exhausted
    | some (n, q2) =>
      let visits2 := insert (n.x, n.y) st.visits
      if dist n.x n.y goal.1 goal.2 < (delta % (2 ^ 32 : Int)).toNat then
        match st.tree.path_to n.id with
        | none => .panic
        | some path =>
          match path.head? with
          | none => .panic
          | some p => .success p
      else
        let ex := expand goal delta n.id n.cost n.x n.y visits2 st.tree q2
        searchLoop goal delta fuel ⟨ex.1, ex.2, visits2⟩

/-- `shortest_path_segment` (`src/pathfinding.rs` lines 22-61),
fuel-indexed. -/
def shortest_path_segment (fuel : Nat) (start goal : Int × Int) (delta : Int) :
    SearchOutcome :=
  searchLoop goal delta fuel
    ⟨Tree.new start, PriorityQueue.new.push ⟨0, 0, start.1, start.2⟩, ∅⟩

/-! ## Physics system — modelled from the spec

The `physics.rs` revision in `src/` is an older rewrite
(`EntityPhysicsState`, an `Entity`/geometry-based `run`) that predates
the component types used by every other source file (`PhysicsComponent`,
footprints, the `"colliding"` tag) and does not compile against them;
the `PhysicsSystem::run` that spec §4.2 describes is not under `src/` —
only its caller (`main.rs`) and consumers are.  Following the
missing-code rule it is modelled from the spec, step by step. -/

/-- The footprint of an entity (spec §4.2 step 2 and glossary): the
hitbox translated by Position, keeping its bottom `depth` pixels.  This
combinator appears verbatim throughout `ai.rs` and `world.rs`. -/
def footprint (pos : PositionComponent) (phys : PhysicsComponent) : Rect :=
  (phys.hitbox.after_position pos).after_depth phys.depth

namespace PhysicsSystem

/-- Modelled from the spec (§4.2 steps 3-4): the per-partner collision
scan for entity `i` with original displacement `delta0`.  The two
speculative footprints are shifted by the x- and y-component of
`delta0`; every other entity with Position and Physics is tested in
index order; a hit on either axis raises the collision flag regardless
of `physical`; if both entities are physical the adjustment recomputed
from `delta0` *overwrites* the accumulator (spec §4.2 step 4 note: the
loop does not accumulate across partners): both axes hit → magnitude 0;
only x hits → direction `π/2`, magnitude `|mag · sin dir|`; only y hits
→ direction `0`, magnitude `|mag · cos dir|`. -/
def collide (T : Trig) (w : World) (i : Nat) (pos : PositionComponent)
    (phys : PhysicsComponent) (delta0 : Vector) : Vector × Bool :=
  let fp := footprint pos phys
  let afterX : Rect := { fp with x := fp.x + delta0.x T }
  let afterY : Rect := { fp with y := fp.y + delta0.y T }
  (List.range w.states.length).foldl
    (fun acc j =>
      if j = i then acc
      else
        match w.positions.getD j none, w.physics.getD j none with
        | some posj, some physj =>
          let fpj := footprint posj physj
          let x_hit := afterX.has_intersection fpj
          let y_hit := afterY.has_intersection fpj
          if x_hit || y_hit then
            let d :=
              if phys.physical && physj.physical then
                if x_hit && y_hit then { delta0 with mag := 0 }
                else if x_hit then
                  ⟨T.pi / 2, |delta0.mag * T.sin delta0.dir|⟩
                else ⟨0, |delta0.mag * T.cos delta0.dir|⟩
              else acc.1
            (d, true)
          else acc
        | _, _ => acc)
    (delta0, false)

/-- Modelled from the spec (§4.2 steps 1-6): processing of one entity
`i` — if it has Position and Physics, scale its velocity by `Δt`
(step 1, `impl Mul<f32> for Vector`), run the collision scan, apply the
final delta to Position by vector addition (step 6,
`PositionComponent::apply_vector`) and record the `"colliding"` tag:
inserted on any hit, removed when no collision occurred (step 5). -/
def stepEntity (T : Trig) (dt : ℚ) (w : World) (i : Nat) : World :=
  match w.positions.getD i none, w.physics.getD i none with
  | some pos, some phys =>
    let delta0 := phys.velocity.mul dt
    let res := collide T w i pos phys delta0
    let newPositions := w.positions.set i (some (pos.apply_vector T res.1))
    let newTags :=
      if res.2 then insert "colliding" (w.states.getD i ∅)
      else (w.states.getD i ∅).erase "colliding"
    { w with positions := newPositions, states := w.states.set i newTags }
  | _, _ => w

/-- The fold of `stepEntity` over a list of entity indices. -/
def runAux (T : Trig) (dt : ℚ) (w : World) (is : List Nat) : World :=
  is.foldl (stepEntity T dt) w

/-- Modelled from the spec (§4.2): `PhysicsSystem::run` with `Δt = dt`,
processing every entity in index order. -/
def run (T : Trig) (dt : ℚ) (w : World) : World :=
  runAux T dt w (List.range w.states.length)

/-- The world state reached when `run` is about to process entity `i`:
all entities of smaller index already processed. -/
def stateBefore (T : Trig) (dt : ℚ) (w : World) (i : Nat) : World :=
  runAux T dt w (List.range i)

end PhysicsSystem

/-! ## `src/ai.rs` — the AI system -/

/-- Modelled from the spec: `Rect::intersects_line` is called by
`AISystem::player_visible` (`ai.rs` line 241) but is absent from the
`geometry.rs` revision in `src/`; the spec (§4.3 and the glossary)
describes it as the obstacle's footprint rectangle intersecting the
straight segment between the two footprint centers.  Implemented as the
exact closed segment-rectangle intersection test (per-axis parameter
interval clipping). -/
def Rect.intersects_line (r : Rect) (x0 y0 x1 y1 : ℚ) : Bool :=
  let dx := x1 - x0
  let dy := y1 - y0
  let tx : Option (ℚ × ℚ) :=
    if dx = 0 then
      if r.x ≤ x0 ∧ x0 ≤ r.x + (r.w : ℚ) then some (0, 1) else none
    else
      let t1 := (r.x - x0) / dx
      let t2 := (r.x + (r.w : ℚ) - x0) / dx
      some (min t1 t2, max t1 t2)
  let ty : Option (ℚ × ℚ) :=
    if dy = 0 then
      if r.y ≤ y0 ∧ y0 ≤ r.y + (r.h : ℚ) then some (0, 1) else none
    else
      let t1 := (r.y - y0) / dy
      let t2 := (r.y + (r.h : ℚ) - y0) / dy
      some (min t1 t2, max t1 t2)
  match tx, ty with
  | some (a1, b1), some (a2, b2) =>
    decide (max (max a1 a2) 0 ≤ min (min b1 b2) 1)
  | _, _ => false

/-- The fixed player entity index (`ai.rs` line 9). -/
def PID : Nat := 0

/-- The fixed monster entity index (`ai.rs` line 10). -/
def MID : Nat := 1

/-- `AISystem` from `src/ai.rs` (lines 12-25); `Instant` fields are
rational timestamps against the explicit clock passed to `run`. -/
structure AISystem where
  last_aggro : ℚ
  idle_path : List (ℚ × ℚ × ℚ)
  next_idle : Nat
  last_idle_time : ℚ
  aggro_distance : ℚ
  lost_delay : ℚ
  last_pathfind : ℚ
  monster_world : String
  teleport_timer : ℚ
  awaiting_teleport : Bool
  teleport_location : ℚ × ℚ
  monster_lake_pos : ℚ × ℚ
deriving DecidableEq

namespace AISystem

/-- `AISystem::new` (`ai.rs` lines 29-44), with `now` for
`Instant::now()`. -/
def new (idle_path : List (ℚ × ℚ × ℚ)) (aggro_distance lost_delay now : ℚ) :
    AISystem :=
  ⟨now, idle_path, 0, now, aggro_distance, lost_delay, now, "lake", now,
    false, (0, 0), (0, 0)⟩

/-- A checked write of `world.positions[i] = v`: Rust indexing panics
when `i` is out of range. -/
def writePos (w : World) (i : Nat) (v : Option PositionComponent) :
    Option World :=
  if i < w.positions.length then
    some { w with positions := w.positions.set i v }
  else none

/-- A checked mutation of the tag set `world.states[i]`. -/
def writeStates (w : World) (i : Nat) (f : Finset String → Finset String) :
    Option World :=
  match w.states.get? i with
  | some st => some { w with states := w.states.set i (f st) }
  | none => none

/-- The index of the first minimal element of a list of values (Rust
`Iterator::min_by` returns the first of equally-minimal elements);
`none` on an empty list (the source's `.unwrap()` panics there). -/
def argminFirst (l : List ℚ) : Option Nat :=
  (l.foldl
    (fun (acc : Option (Nat × ℚ) × Nat) v =>
      match acc.1 with
      | none => (some (acc.2, v), acc.2 + 1)
      | some (bi, bv) =>
        if v < bv then (some (acc.2, v), acc.2 + 1)
        else (some (bi, bv), acc.2 + 1))
    (none, 0)).1.map Prod.fst

/-- The nearest-idle-waypoint search of `ai.rs` (lines 78-85 and
197-204): the index of the waypoint closest to `mlp` by straight-line
distance, ties broken by array order. -/
def nearestIdleIdx (T : Trig) (path : List (ℚ × ℚ × ℚ)) (mlp : ℚ × ℚ) :
    Option Nat :=
  argminFirst (path.map
    (fun p => T.sqrt ((p.2.1 - mlp.2) ^ 2 + (p.1 - mlp.1) ^ 2)))

/-- `AISystem::sim_dist` (`ai.rs` lines 212-219). -/
def sim_dist (T : Trig) (ai : AISystem) : Option ℚ :=
  match ai.idle_path.get? ai.next_idle with
  | some p =>
    some (T.sqrt ((ai.monster_lake_pos.2 - p.2.1) ^ 2 +
      (ai.monster_lake_pos.1 - p.1) ^ 2))
  | none => none

/-- One entry of `World::physics_mut()` (`world.rs` lines 191-195): an
entity index together with its tag set, Position and Physics, present
only when both components exist. -/
structure PhysEntry where
  idx : Nat
  tags : Finset String
  pos : PositionComponent
  phys : PhysicsComponent

/-- `World::physics_mut().collect()`: all entities having both Position
and Physics, in index order. -/
def physicalEntities (w : World) : List PhysEntry :=
  (List.range w.states.length).filterMap
    (fun i =>
      match w.positions.getD i none, w.physics.getD i none with
      | some pos, some phys => some ⟨i, w.states.getD i ∅, pos, phys⟩
      | _, _ => none)

/-- `AISystem::player_visible` (`ai.rs` lines 221-247): footprint
centers of the entries at positions `MID` and `PID` of the collected
physical-entity vector; any *other* collected entity whose footprint
intersects the segment between the centers blocks sight. -/
def player_visible (w : World) : Option Bool := do
  let entities := physicalEntities w
  let em ← entities.get? MID
  let ep ← entities.get? PID
  let m_rect := footprint em.pos em.phys
  let p_rect := footprint ep.pos ep.phys
  let my := m_rect.y + (m_rect.h : ℚ) / 2
  let mx := m_rect.x + (m_rect.w : ℚ) / 2
  let py := p_rect.y + (p_rect.h : ℚ) / 2
  let px := p_rect.x + (p_rect.w : ℚ) / 2
  pure (!(entities.drop 2).any
    (fun e => (footprint e.pos e.phys).intersects_line mx my px py))

/-- `AISystem::dist` (`ai.rs` lines 272-281): distance from the
monster's footprint corner to `(x, y)`; panics (`none`) when the
monster lacks Physics or Position. -/
def dist (T : Trig) (w : World) (x y : ℚ) : Option ℚ := do
  let php ← w.physics.get? MID
  let ph ← php
  let pop ← w.positions.get? MID
  let po ← pop
  let rect := footprint po ph
  pure (T.sqrt ((rect.y - y) ^ 2 + (rect.x - x) ^ 2))

/-- `AISystem::goto` (`ai.rs` lines 249-270): aim the monster's velocity
at `(x, y)` from its footprint corner, tag it `"walking"`, and set the
facing flip from the sign of the new velocity's x-component
(`> 0.1` → not flipped, otherwise flipped). -/
def goto (T : Trig) (w : World) (x y speed : ℚ) : Option World := do
  let php ← w.physics.get? MID
  let ph ← php
  let pop ← w.positions.get? MID
  let po ← pop
  let rect := footprint po ph
  let angle := T.atan2 (y - rect.y) (x - rect.x)
  let mag := speed
  let newPhysics := w.physics.set MID (some { ph with velocity := ⟨angle, mag⟩ })
  let w := { w with physics := newPhysics }
  let w ← writeStates w MID (fun st => insert "walking" st)
  let g ← w.graphics.get? MID
  let gc ← g
  let fl : Bool := if Vector.x ⟨angle, mag⟩ T > 1 / 10 then false else true
  pure { w with graphics := w.graphics.set MID (some { gc with flipped := fl }) }

/-- `AISystem::stop` (`ai.rs` lines 283-286). -/
def stop (w : World) : Option World := do
  let php ← w.physics.get? MID
  let ph ← php
  let newPhysics := w.physics.set MID (some { ph with velocity := { ph.velocity with mag := 0 } })
  let w := { w with physics := newPhysics }
  let st ← w.states.get? MID
  pure { w with states := w.states.set MID (st.erase "walking") }

/-- `AISystem::run` lines 47-50: reload the monster into the lake world
when both worlds are `"lake"` and its Position is absent (the `&&`
short-circuit means `positions[MID]` is only indexed when the two
string tests pass). -/
def reloadMonster (ai : AISystem) (w : World) : Option (AISystem × World) :=
  if ai.monster_world = "lake" ∧ w.current_world = "lake" then do
    let pm ← w.positions.get? MID
    if pm.isNone then do
      let w ← writePos w MID
        (some ⟨ai.monster_lake_pos.1, ai.monster_lake_pos.2⟩)
      pure (ai, w)
    else pure (ai, w)
  else pure (ai, w)

/-- `AISystem::run` lines 53-97: handle the player having moved to a new
world — restore the monster in the lake, or save its position and
either schedule a pursuit teleport (when aggroed) or park it at the
nearest idle waypoint, removing it from the scene. -/
def worldSwitch (T : Trig) (now : ℚ) (ai : AISystem) (w : World) :
    Option (AISystem × World) :=
  if ai.monster_world ≠ w.current_world then
    if w.current_world = "lake" then do
      let ai := { ai with monster_world := "lake" }
      let w ← writePos w MID
        (some ⟨ai.monster_lake_pos.1, ai.monster_lake_pos.2⟩)
      pure (ai, w)
    else do
      let pm ← w.positions.get? MID
      match pm with
      | some posm => do
        let ai := { ai with monster_lake_pos := (posm.x, posm.y) }
        let st ← w.states.get? MID
        let ai ←
          if "aggro" ∈ st then do
            let php ← w.physics.get? PID
            let ph ← php
            let pop ← w.positions.get? PID
            let po ← pop
            let rect := footprint po ph
            pure { ai with awaiting_teleport := true,
                           teleport_location := (rect.x, rect.y),
                           teleport_timer := now,
                           monster_world := w.current_world }
          else do
            let mindex ← nearestIdleIdx T ai.idle_path ai.monster_lake_pos
            let p ← ai.idle_path.get? mindex
            pure { ai with monster_lake_pos := (p.1, p.2.1),
                           next_idle := (mindex + 1) % ai.idle_path.length,
                           last_idle_time := now }
        let w ← writePos w MID none
        pure (ai, w)
      | none => pure (ai, w)
  else pure (ai, w)

/-- `AISystem::run` lines 103-110: the delayed teleport application —
put the monster back at the recorded location, raised by its hitbox
height. -/
def applyTeleport (ai : AISystem) (w : World) : Option (AISystem × World) := do
  let php ← w.physics.get? MID
  let ph ← php
  let height := ph.hitbox.h
  let ai := { ai with awaiting_teleport := false }
  let w ← writePos w MID
    (some ⟨ai.teleport_location.1, ai.teleport_location.2 - (height : ℚ)⟩)
  pure (ai, w)

/-- `AISystem::run` lines 113-130: the visibility phase — aggro when the
player is visible and near, drop to `"lost"` when an aggroed monster
loses sight. -/
def checkAggro (T : Trig) (now : ℚ) (ai : AISystem) (w : World) :
    Option (AISystem × World) :=
  if w.current_world = ai.monster_world then do
    let vis ← player_visible w
    if vis then do
      let pop ← w.positions.get? PID
      let po ← pop
      let d ← dist T w po.x po.y
      if d < ai.aggro_distance then do
        let w ← writeStates w MID
          (fun st => insert "aggro" ((st.erase "lost").erase "idle"))
        pure (ai, w)
      else pure (ai, w)
    else do
      let st ← w.states.get? MID
      if "aggro" ∈ st then do
        let ai := { ai with last_aggro := now }
        let w ← writeStates w MID (fun st => insert "lost" (st.erase "aggro"))
        pure (ai, w)
      else pure (ai, w)
  else pure (ai, w)

/-- `AISystem::run` lines 133-209: the per-state behaviour.  In the
simulated-idle branch the source computes
`(next_idle - 1 + len) % len` in `usize`; at `next_idle = 0` the
subtraction wraps (release semantics), giving `len - 1`, which is
modelled by the equal expression `(next_idle + len - 1) % len`. -/
def behave (T : Trig) (now : ℚ) (ai : AISystem) (w : World) :
    Option (AISystem × World) := do
  let st ← w.states.get? MID
  if "idle" ∈ st then
    if w.current_world = "lake" ∧ ai.monster_world = "lake" then do
      let p ← ai.idle_path.get? ai.next_idle
      let d ← dist T w p.1 p.2.1
      if d < 2 then
        pure ({ ai with next_idle := (ai.next_idle + 1) % ai.idle_path.length,
                        last_idle_time := now }, w)
      else do
        let w ← goto T w p.1 p.2.1 60
        pure (ai, w)
    else if w.current_world ≠ "lake" ∧ ai.monster_world ≠ "lake" then do
      let d ← dist T w ai.teleport_location.1 ai.teleport_location.2
      if d < 2 then do
        let w ← writePos w MID none
        pure ({ ai with monster_world := "lake" }, w)
      else do
        let w ← goto T w ai.teleport_location.1 ai.teleport_location.2 60
        pure (ai, w)
    else do
      let sd ← sim_dist T ai
      let ai ←
        if sd < 2 then
          pure { ai with next_idle := (ai.next_idle + 1) % ai.idle_path.length,
                         last_idle_time := now }
        else pure ai
      let p ← ai.idle_path.get? ai.next_idle
      let t := (now - ai.last_idle_time) / p.2.2
      let last_index := (ai.next_idle + ai.idle_path.length - 1) %
        ai.idle_path.length
      let lp ← ai.idle_path.get? last_index
      let delta_x := p.1 - lp.1
      let delta_y := p.2.1 - lp.2.1
      pure ({ ai with monster_lake_pos :=
        (lp.1 + delta_x * t, lp.2.1 + delta_y * t) }, w)
  else if "aggro" ∈ st then do
    let php ← w.physics.get? PID
    let ph ← php
    let pop ← w.positions.get? PID
    let po ← pop
    let rect := footprint po ph
    let speed := 54 + 20 * T.sin ((now - ai.last_pathfind) * 5)
    let w ← goto T w rect.x rect.y speed
    pure (ai, w)
  else if "lost" ∈ st then do
    let w ← stop w
    if now - ai.last_aggro > ai.lost_delay then do
      let w2 ← writeStates w MID (fun s => insert "idle" (s.erase "lost"))
      let mindex ← nearestIdleIdx T ai.idle_path ai.monster_lake_pos
      pure ({ ai with next_idle := (mindex + 1) % ai.idle_path.length,
                      last_idle_time := now }, w2)
    else pure (ai, w)
  else pure (ai, w)

/-- `AISystem::run` (`ai.rs` lines 46-210): the phases in source order,
with the early `return` of the pending-teleport gate (line 102). -/
def run (T : Trig) (now : ℚ) (ai : AISystem) (w : World) :
    Option (AISystem × World) := do
  let (ai, w) ← reloadMonster ai w
  let (ai, w) ← worldSwitch T now ai w
  if ai.awaiting_teleport then
    if now - ai.teleport_timer < 5 then pure (ai, w)
    else do
      let (ai, w) ← applyTeleport ai w
      let (ai, w) ← checkAggro T now ai w
      behave T now ai w
  else do
    let (ai, w) ← checkAggro T now ai w
    behave T now ai w

end AISystem

/-! ## Claim C6 — footprint geometry -/

/-- C6: for every rectangle with height `h` and every depth `d ≤ h`,
`after_depth d` keeps `x` and `w` unchanged, sets `y` to `y + (h - d)`
and the height to `d` — the bottom `d` pixels of the rectangle. -/
theorem after_depth_bottom_pixels (x y : ℚ) (w h d : Nat) (hd : d ≤ h) :
    Rect.after_depth ⟨x, y, w, h⟩ d = ⟨x, y + ((h - d : Nat) : ℚ), w, d⟩ := by
  have hc : ((h - d : Nat) : ℚ) = (h : ℚ) - (d : ℚ) := Nat.cast_sub hd
  simp only [Rect.after_depth, hc]

/-- C6 witness: a hitbox `(x=0, y=0, w=10, h=20)` with depth `5` yields
the footprint `(x=0, y=15, w=10, h=5)`. -/
theorem after_depth_bottom_pixels_witness :
    (5 : Nat) ≤ 20 ∧ Rect.after_depth ⟨0, 0, 10, 20⟩ 5 = ⟨0, 15, 10, 5⟩ := by
  refine ⟨by decide, ?_⟩
  have h := after_depth_bottom_pixels 0 0 10 20 5 (by decide)
  rw [h]
  norm_num

/-! ## Claim C7 — the parallel-array invariant of `add_entity` -/

/-- C7: after every `add_entity` call on a well-formed world, all parallel
per-entity containers have equal length, the returned id is that common
length minus one — the index of the newly appended entity — and the new
entity's tag set is empty. -/
theorem add_entity_parallel_invariant (w : World)
    (p : Option PositionComponent) (ph : Option PhysicsComponent)
    (g : Option GraphicsComponent) (an : Option AnimationComponent)
    (ac : Option ActionComponent) (hwf : w.wf) :
    (w.add_entity p ph g an ac).1.wf ∧
    (w.add_entity p ph g an ac).2 = (w.add_entity p ph g an ac).1.states.length - 1 ∧
    (w.add_entity p ph g an ac).2 = w.states.length ∧
    (w.add_entity p ph g an ac).1.states.get? (w.add_entity p ph g an ac).2 =
      some ∅ := by
  obtain ⟨h1, h2, h3, h4, h5⟩ := hwf
  refine ⟨⟨?_, ?_, ?_, ?_, ?_⟩, ?_, ?_, ?_⟩ <;>
    simp [World.add_entity, World.wf, h1, h2, h3, h4, h5, List.getElem?_append_right]

/-- C7 witness: adding an entity to a concrete well-formed world. -/
theorem add_entity_parallel_invariant_witness :
    (World.mk "lake" [∅] [none] [none] [none] [none] [none]).wf ∧
    ((World.mk "lake" [∅] [none] [none] [none] [none] [none]).add_entity
        (some ⟨1, 2⟩) none none none none).1.wf ∧
    ((World.mk "lake" [∅] [none] [none] [none] [none] [none]).add_entity
        (some ⟨1, 2⟩) none none none none).2 = 1 := by
  have h := add_entity_parallel_invariant
    (World.mk "lake" [∅] [none] [none] [none] [none] [none])
    (some ⟨1, 2⟩) none none none none (by decide)
  exact ⟨by decide, h.1, by decide⟩

/-! ## Priority-queue theory (helper lemmas for C3-C5) -/

theorem isqrtGo_eq (n : Nat) :
    ∀ (fuel k : Nat), k * k ≤ n → Nat.sqrt n ≤ k + fuel →
      isqrtGo n fuel k = Nat.sqrt n := by
  intro fuel
  induction fuel with
  | zero =>
    intro k hk hle
    have hks : k ≤ Nat.sqrt n := Nat.le_sqrt.mpr hk
    simp only [isqrtGo]
    omega
  | succ fuel ih =>
    intro k hk hle
    simp only [isqrtGo]
    split
    case isTrue h => exact ih (k + 1) h (by omega)
    case isFalse h =>
      have hlt : Nat.sqrt n < k + 1 := by
        by_contra hc
        exact h (Nat.le_sqrt.mp (by omega))
      have hks : k ≤ Nat.sqrt n := Nat.le_sqrt.mpr hk
      omega

/-- The fuel-based floor square root agrees with `Nat.sqrt`. -/
theorem isqrt_eq_sqrt (n : Nat) : isqrt n = Nat.sqrt n :=
  isqrtGo_eq n n 0 (Nat.zero_le _)
    (by simpa using Nat.sqrt_le_self n)

theorem insertIdx_eq_take_cons_drop {α : Type} (a : α) :
    ∀ (p : Nat) (l : List α), p ≤ l.length →
      l.insertIdx p a = l.take p ++ a :: l.drop p := by
  intro p
  induction p with
  | zero => intro l _; simp
  | succ p ih =>
    intro l hp
    cases l with
    | nil => simp at hp
    | cons hd tl =>
      simp only [List.insertIdx_succ_cons, List.take_succ_cons,
        List.drop_succ_cons, List.cons_append, List.cons.injEq, true_and]
      exact ih tl (Nat.le_of_succ_le_succ hp)

theorem mem_take_index {α : Type} {a : α} {l : List α} {p : Nat}
    (h : a ∈ l.take p) : ∃ i, i < p ∧ l.get? i = some a := by
  obtain ⟨i, hi, hget⟩ := List.mem_iff_getElem.mp h
  have hip : i < p := lt_of_lt_of_le hi (by simp [List.length_take])
  have hil : i < l.length := by
    have := List.length_take p l
    omega
  refine ⟨i, hip, ?_⟩
  rw [List.get?_eq_getElem?, List.getElem?_eq_getElem hil]
  rw [List.getElem_take] at hget
  rw [hget]

theorem mem_drop_index {α : Type} {a : α} {l : List α} {p : Nat}
    (h : a ∈ l.drop p) : ∃ i, p ≤ i ∧ l.get? i = some a := by
  obtain ⟨i, hi, hget⟩ := List.mem_iff_getElem.mp h
  have hil : p + i < l.length := by
    have := List.length_drop p l
    omega
  refine ⟨p + i, Nat.le_add_right _ _, ?_⟩
  rw [List.get?_eq_getElem?, List.getElem?_eq_getElem hil]
  rw [List.getElem_drop] at hget
  rw [hget]

theorem sortedDesc_rel {ns : List Node} (hs : PriorityQueue.sortedDesc ns)
    {i j : Nat} (hij : i ≤ j) {a b : Node} (ha : ns.get? i = some a)
    (hb : ns.get? j = some b) : b.cost ≤ a.cost := by
  rcases Nat.eq_or_lt_of_le hij with rfl | hlt
  · rw [ha] at hb
    cases hb
    exact le_refl _
  · rw [List.get?_eq_getElem?] at ha hb
    obtain ⟨hi2, ha2⟩ := List.getElem?_eq_some.mp ha
    obtain ⟨hj2, hb2⟩ := List.getElem?_eq_some.mp hb
    have hr := List.pairwise_iff_getElem.mp hs i j hi2 hj2 hlt
    rw [ha2, hb2] at hr
    exact hr

theorem bsLoop_le (c : Nat) (ns : List Node) :
    ∀ (fuel left right : Nat), left ≤ right →
      PriorityQueue.bsLoop c ns fuel left right ≤ right := by
  intro fuel
  induction fuel with
  | zero => intro left right h; simpa [PriorityQueue.bsLoop] using h
  | succ fuel ih =>
    intro left right h
    simp only [PriorityQueue.bsLoop]
    split
    case isTrue hlt =>
      cases hg : ns.get? (left + (right - left) / 2) with
      | none => exact h
      | some node =>
        simp only []
        split
        case isTrue =>
          exact ih _ _ (by omega)
        case isFalse =>
          split
          case isTrue =>
            exact le_trans (ih _ _ (by omega)) (by omega)
          case isFalse => omega
    case isFalse => exact h

theorem bsLoop_bracket (c : Nat) (ns : List Node)
    (hs : PriorityQueue.sortedDesc ns) :
    ∀ (fuel left right : Nat), right - left ≤ fuel → right ≤ ns.length →
      (∀ i nd, i < left → ns.get? i = some nd → c ≤ nd.cost) →
      (∀ i nd, right ≤ i → ns.get? i = some nd → nd.cost ≤ c) →
      (∀ i nd, i < PriorityQueue.bsLoop c ns fuel left right →
          ns.get? i = some nd → c ≤ nd.cost) ∧
      (∀ i nd, PriorityQueue.bsLoop c ns fuel left right ≤ i →
          ns.get? i = some nd → nd.cost ≤ c) := by
  intro fuel
  induction fuel with
  | zero =>
    intro left right hf _ hA hB
    simp only [PriorityQueue.bsLoop]
    exact ⟨hA, fun i nd hi => hB i nd (by omega)⟩
  | succ fuel ih =>
    intro left right hf hlen hA hB
    simp only [PriorityQueue.bsLoop]
    split
    case isTrue hlt =>
      have hmidlt : left + (right - left) / 2 < right := by omega
      have hmidlen : left + (right - left) / 2 < ns.length := by omega
      cases hg : ns.get? (left + (right - left) / 2) with
      | none =>
        rw [List.get?_eq_getElem?, List.getElem?_eq_getElem hmidlen] at hg
        cases hg
      | some node =>
        simp only []
        split
        case isTrue hclt =>
          refine ih (left + (right - left) / 2 + 1) right (by omega) hlen
            ?_ hB
          intro i nd hi hval
          rcases Nat.lt_or_ge i left with hil | hil
          · exact hA i nd hil hval
          · have : node.cost ≤ nd.cost :=
              sortedDesc_rel hs (by omega) hval hg
            omega
        case isFalse hcge =>
          split
          case isTrue hcgt =>
            refine ih left (left + (right - left) / 2) (by omega)
              (by omega) hA ?_
            intro i nd hi hval
            rcases Nat.lt_or_ge i right with hir | hir
            · have : nd.cost ≤ node.cost :=
                sortedDesc_rel hs hi hg hval
              omega
            · exact hB i nd hir hval
          case isFalse hceq =>
            have hnc : node.cost = c := by omega
            constructor
            · intro i nd hi hval
              have : node.cost ≤ nd.cost :=
                sortedDesc_rel hs (by omega) hval hg
              omega
            · intro i nd hi hval
              have : nd.cost ≤ node.cost :=
                sortedDesc_rel hs hi hg hval
              omega
    case isFalse hge =>
      exact ⟨hA, fun i nd hi => hB i nd (by omega)⟩

theorem binary_search_le (q : PriorityQueue) (n : Node) :
    q.binary_search n ≤ q.nodes.length :=
  bsLoop_le n.cost q.nodes _ 0 q.nodes.length (Nat.zero_le _)

theorem push_sortedDesc (q : PriorityQueue) (n : Node)
    (hs : PriorityQueue.sortedDesc q.nodes) :
    PriorityQueue.sortedDesc (q.push n).nodes := by
  have hp : q.binary_search n ≤ q.nodes.length := binary_search_le q n
  have hbr := bsLoop_bracket n.cost q.nodes hs (q.nodes.length + 1) 0
    q.nodes.length (by omega) (le_refl _)
    (by intro i nd hi; omega)
    (by
      intro i nd hi hval
      rw [List.get?_eq_getElem?] at hval
      obtain ⟨hlt, _⟩ := List.getElem?_eq_some.mp hval
      omega)
  obtain ⟨hA, hB⟩ := hbr
  have hsplit := List.take_append_drop (q.binary_search n) q.nodes
  have hcross : ∀ a ∈ q.nodes.take (q.binary_search n),
      ∀ b ∈ q.nodes.drop (q.binary_search n), b.cost ≤ a.cost := by
    have := hs
    rw [← hsplit] at this
    exact (List.pairwise_append.mp this).2.2
  show List.Pairwise _ (q.nodes.insertIdx (q.binary_search n) n)
  rw [insertIdx_eq_take_cons_drop n _ _ hp]
  rw [List.pairwise_append]
  refine ⟨List.Pairwise.sublist (List.take_sublist _ _) hs, ?_, ?_⟩
  · rw [List.pairwise_cons]
    refine ⟨?_, List.Pairwise.sublist (List.drop_sublist _ _) hs⟩
    intro b hb
    obtain ⟨i, hi, hval⟩ := mem_drop_index hb
    exact hB i b hi hval
  · intro a ha b hb
    rcases List.mem_cons.mp hb with rfl | hb2
    · obtain ⟨i, hi, hval⟩ := mem_take_index ha
      exact hA i a hi hval
    · exact hcross a ha b hb2

theorem insert_or_replace_sortedDesc (q : PriorityQueue) (n : Node)
    (hs : PriorityQueue.sortedDesc q.nodes) :
    PriorityQueue.sortedDesc (q.insert_or_replace n).nodes := by
  unfold PriorityQueue.insert_or_replace
  cases q.index_of n with
  | none => exact push_sortedDesc q n hs
  | some i =>
    simp only []
    split
    · exact push_sortedDesc _ n
        (List.Pairwise.sublist (List.eraseIdx_sublist q.nodes i) hs)
    · exact hs

theorem built_sortedDesc {q : PriorityQueue} (hq : PriorityQueue.Built q) :
    PriorityQueue.sortedDesc q.nodes := by
  induction hq with
  | new => exact List.Pairwise.nil
  | push q n _ ih => exact push_sortedDesc q n ih
  | insert_or_replace q n _ ih => exact insert_or_replace_sortedDesc q n ih

theorem getLast_min {l : List Node} (hs : PriorityQueue.sortedDesc l)
    {n : Node} (h : l.getLast? = some n) : ∀ m ∈ l, n.cost ≤ m.cost := by
  induction l with
  | nil => cases h
  | cons a l ih =>
    cases l with
    | nil =>
      cases h
      intro m hm
      rcases List.mem_singleton.mp hm with rfl
      exact le_refl _
    | cons b l2 =>
      rw [List.getLast?_cons_cons] at h
      have hpw := List.pairwise_cons.mp hs
      have hrec := ih hpw.2 h
      intro m hm
      rcases List.mem_cons.mp hm with rfl | hm2
      · exact le_trans (hrec b (List.mem_cons_self _ _)) (hpw.1 b
          (List.mem_cons_self _ _))
      · exact hrec m hm2

theorem mem_push {q : PriorityQueue} {n m : Node}
    (h : m ∈ (q.push n).nodes) : m = n ∨ m ∈ q.nodes :=
  (List.mem_insertIdx (binary_search_le q n)).mp h

theorem mem_insert_or_replace {q : PriorityQueue} {n m : Node}
    (h : m ∈ (q.insert_or_replace n).nodes) : m = n ∨ m ∈ q.nodes := by
  unfold PriorityQueue.insert_or_replace at h
  cases hio : q.index_of n with
  | none =>
    rw [hio] at h
    exact mem_push h
  | some i =>
    rw [hio] at h
    simp only [] at h
    split at h
    · rcases mem_push h with rfl | hm
      · exact Or.inl rfl
      · exact Or.inr ((List.eraseIdx_sublist q.nodes i).mem hm)
    · exact Or.inr h

/-! ## Claim C5 — priority-queue ordering and extraction end -/

/-- C5 counterexample: pushing the cost-5 node then the cost-3 node
yields the node list `[cost 5, cost 3]` — sorted *descending*, not
ascending — and `pop` returns the cost-3 node, which is the *minimal*
cost present (3 < 5), not the maximal one. -/
theorem pq_pop_counterexample :
    ((PriorityQueue.new.push ⟨0, 5, 0, 0⟩).push ⟨1, 3, 1, 1⟩).nodes =
      [⟨0, 5, 0, 0⟩, ⟨1, 3, 1, 1⟩] ∧
    ((PriorityQueue.new.push ⟨0, 5, 0, 0⟩).push ⟨1, 3, 1, 1⟩).pop =
      some (⟨1, 3, 1, 1⟩, ⟨[⟨0, 5, 0, 0⟩]⟩) ∧
    (3 : Nat) < 5 := by
  decide

/-- C5 (amended): `push` and `insert_or_replace` keep the node list
sorted by cost *descending* (the comparator handed to the binary search
is inverted), and `pop` removes the last element of that descending
sequence, so for every queue built only by `push`/`insert_or_replace`,
`pop` returns a node of *minimal* cost among the queued nodes. -/
theorem pq_sorted_desc_pop_min (q : PriorityQueue)
    (hq : PriorityQueue.Built q) :
    PriorityQueue.sortedDesc q.nodes ∧
    ∀ n q2, q.pop = some (n, q2) → ∀ m ∈ q.nodes, n.cost ≤ m.cost := by
  have hs := built_sortedDesc hq
  refine ⟨hs, ?_⟩
  intro n q2 hpop m hm
  unfold PriorityQueue.pop at hpop
  cases hg : q.nodes.getLast? with
  | none => rw [hg] at hpop; cases hpop
  | some nl =>
    rw [hg] at hpop
    cases hpop
    exact getLast_min hs hg m hm

/-- C5 witness: the amended theorem applied to the concrete queue built
by two pushes and one `insert_or_replace`. -/
theorem pq_sorted_desc_pop_min_witness :
    PriorityQueue.sortedDesc
      (((PriorityQueue.new.push ⟨0, 5, 0, 0⟩).push
        ⟨1, 3, 1, 1⟩).insert_or_replace ⟨2, 4, 2, 2⟩).nodes ∧
    ∀ n q2,
      (((PriorityQueue.new.push ⟨0, 5, 0, 0⟩).push
        ⟨1, 3, 1, 1⟩).insert_or_replace ⟨2, 4, 2, 2⟩).pop = some (n, q2) →
      ∀ m ∈ (((PriorityQueue.new.push ⟨0, 5, 0, 0⟩).push
        ⟨1, 3, 1, 1⟩).insert_or_replace ⟨2, 4, 2, 2⟩).nodes,
        n.cost ≤ m.cost :=
  pq_sorted_desc_pop_min _
    (.insert_or_replace _ _ (.push _ _ (.push _ _ .new)))

/-! ## Claim C4 — expansion cost model -/

/-- C4 counterexample: expanding the start node of a search toward goal
`(10, 0)` with `delta = 3` enqueues neighbours whose cost is *not*
`curr_cost + 1 + dist(neighbour, goal)`: the neighbour `(3, 0)` is
enqueued with cost `0 + 1 + dist((0,0), goal) = 11`, while the claim's
formula gives `0 + 1 + dist((3,0), goal) = 8`. -/
theorem expand_cost_counterexample :
    ¬ (∀ m ∈ (expand (10, 0) 3 0 0 0 0 (insert ((0 : Int), (0 : Int)) ∅)
          (Tree.new (0, 0)) ⟨[]⟩).2.nodes,
        m.cost = 0 + 1 + dist m.x m.y 10 0) := by
  decide

/-- C4 (amended): every neighbour generated while expanding a node
`(x, y)` with cost `curr_cost` is enqueued with cost
`curr_cost + 1 + dist(x, y, goal)` — the heuristic term added is the
straight-line distance from the *expanded* node to the goal (so all
eight neighbours of a node receive the same cost), not the distance
from the newly generated neighbour. -/
theorem expand_cost_from_expanded_node (goal : Int × Int) (delta : Int)
    (node curr_cost : Nat) (x y : Int) (visits : Finset (Int × Int))
    (tree : Tree (Int × Int)) (queue : PriorityQueue)
    (hwf : ∀ m ∈ queue.nodes, m.id < tree.arena.length) :
    ∀ m ∈ (expand goal delta node curr_cost x y visits tree queue).2.nodes,
      tree.arena.length ≤ m.id →
      m.cost = curr_cost + 1 + dist x y goal.1 goal.2 := by
  have key : ∀ (ds : List (Int × Int)) (tq : Tree (Int × Int) × PriorityQueue),
      tree.arena.length ≤ tq.1.arena.length →
      (∀ m ∈ tq.2.nodes, m.id < tq.1.arena.length) →
      (∀ m ∈ tq.2.nodes, tree.arena.length ≤ m.id →
        m.cost = curr_cost + 1 + dist x y goal.1 goal.2) →
      tree.arena.length ≤
        (ds.foldl (expandStep goal delta node curr_cost x y visits) tq).1.arena.length ∧
      (∀ m ∈ (ds.foldl (expandStep goal delta node curr_cost x y visits) tq).2.nodes,
        m.id <
          (ds.foldl (expandStep goal delta node curr_cost x y visits) tq).1.arena.length) ∧
      (∀ m ∈ (ds.foldl (expandStep goal delta node curr_cost x y visits) tq).2.nodes,
        tree.arena.length ≤ m.id →
        m.cost = curr_cost + 1 + dist x y goal.1 goal.2) := by
    intro ds
    induction ds with
    | nil => intro tq h1 h2 h3; exact ⟨h1, h2, h3⟩
    | cons d ds ih =>
      intro tq h1 h2 h3
      simp only [List.foldl_cons]
      by_cases hv : (x + delta * d.1, y + delta * d.2) ∈ visits
      · have hstep : expandStep goal delta node curr_cost x y visits tq d = tq := by
          unfold expandStep
          simp [hv]
        rw [hstep]
        exact ih tq h1 h2 h3
      · have hstep : expandStep goal delta node curr_cost x y visits tq d =
            ((⟨tq.1.arena ++ [⟨some node, (x + delta * d.1, y + delta * d.2)⟩]⟩ :
                Tree (Int × Int)),
              tq.2.insert_or_replace
                ⟨tq.1.arena.length, curr_cost + 1 + dist x y goal.1 goal.2,
                  x + delta * d.1, y + delta * d.2⟩) := by
          unfold expandStep Tree.insert
          simp [hv]
        rw [hstep]
        refine ih _ ?_ ?_ ?_
        · simp only [List.length_append, List.length_cons, List.length_nil]
          omega
        · intro m hm
          simp only [List.length_append, List.length_cons, List.length_nil]
          rcases mem_insert_or_replace hm with rfl | hm2
          · simp only []
            omega
          · have := h2 m hm2
            omega
        · intro m hm hge
          rcases mem_insert_or_replace hm with rfl | hm2
          · rfl
          · exact h3 m hm2 hge
  intro m hm hge
  exact (key dirs (tree, queue) (le_refl _) hwf
    (fun m hm2 hge2 => absurd (hwf m hm2) (by omega))).2.2 m hm hge

/-- C4 witness: the amended theorem applied to the concrete expansion of
the start node toward goal `(10, 0)` (empty queue, so the queue-tree id
invariant holds trivially), instantiated at the enqueued neighbour
`(3, 0)`, whose cost is `0 + 1 + dist((0,0), (10,0))`. -/
theorem expand_cost_from_expanded_node_witness :
    (⟨7, 11, 3, 0⟩ : Node) ∈ (expand (10, 0) 3 0 0 0 0
        (insert ((0 : Int), (0 : Int)) ∅) (Tree.new (0, 0)) ⟨[]⟩).2.nodes ∧
    (Tree.new ((0 : Int), (0 : Int))).arena.length ≤ 7 ∧
    (⟨7, 11, 3, 0⟩ : Node).cost = 0 + 1 + dist 0 0 10 0 := by
  refine ⟨by decide, by decide, ?_⟩
  exact expand_cost_from_expanded_node (10, 0) 3 0 0 0 0
    (insert ((0 : Int), (0 : Int)) ∅) (Tree.new (0, 0)) ⟨[]⟩
    (by intro m hm; cases hm) ⟨7, 11, 3, 0⟩ (by decide) (by decide)

/-! ## Claim C3 — what the search returns on success -/

/-- C3: the code disagrees with the claim (and with its own comment
"return the next step"): `path_to` produces the root-first path, so
`path[0]` is always the *start* coordinate itself.  Evaluating the
embedded search from `(0, 0)` to `(4, 0)` with `delta = 3`: the search
succeeds (so the `None` branch is not taken), yet returns the start
`(0, 0)` rather than a coordinate one grid step toward the goal. -/
theorem shortest_path_segment_returns_start :
    shortest_path_segment 20 (0, 0) (4, 0) 3 = .success (0, 0) := by
  decide

/-! ## Physics frame lemmas (helpers for C1-C2) -/

theorem lt_of_getD_eq_some {α : Type} {l : List (Option α)} {i : Nat}
    {x : α} (h : l.getD i none = some x) : i < l.length := by
  by_contra hc
  push_neg at hc
  rw [List.getD_eq_getElem?_getD, List.getElem?_eq_none hc] at h
  simp at h

theorem stepEntity_frame (T : Trig) (dt : ℚ) (w : World) (k : Nat) :
    (PhysicsSystem.stepEntity T dt w k).physics = w.physics ∧
    (PhysicsSystem.stepEntity T dt w k).states.length = w.states.length ∧
    (PhysicsSystem.stepEntity T dt w k).positions.length = w.positions.length ∧
    ∀ i, i ≠ k →
      (PhysicsSystem.stepEntity T dt w k).positions.getD i none =
        w.positions.getD i none ∧
      (PhysicsSystem.stepEntity T dt w k).states.getD i ∅ =
        w.states.getD i ∅ := by
  unfold PhysicsSystem.stepEntity
  rcases h1 : w.positions.getD k none with _ | pos <;>
    rcases h2 : w.physics.getD k none with _ | phys <;>
      simp only [h1, h2]
  case none.none => simp
  case none.some => simp
  case some.none => simp
  case some.some =>
    refine ⟨trivial, by simp [List.length_set], by simp [List.length_set], ?_⟩
    intro i hik
    constructor <;>
      · simp only [List.getD_eq_getElem?_getD]
        rw [List.getElem?_set_ne (Ne.symm hik)]

theorem runAux_frame (T : Trig) (dt : ℚ) :
    ∀ (is : List Nat) (w : World),
      (PhysicsSystem.runAux T dt w is).physics = w.physics ∧
      (PhysicsSystem.runAux T dt w is).states.length = w.states.length ∧
      (PhysicsSystem.runAux T dt w is).positions.length = w.positions.length ∧
      ∀ i, i ∉ is →
        (PhysicsSystem.runAux T dt w is).positions.getD i none =
          w.positions.getD i none ∧
        (PhysicsSystem.runAux T dt w is).states.getD i ∅ =
          w.states.getD i ∅ := by
  intro is
  induction is with
  | nil => intro w; exact ⟨rfl, rfl, rfl, fun i _ => ⟨rfl, rfl⟩⟩
  | cons k ks ih =>
    intro w
    have hstep := stepEntity_frame T dt w k
    have hrec := ih (PhysicsSystem.stepEntity T dt w k)
    refine ⟨?_, ?_, ?_, ?_⟩
    · rw [PhysicsSystem.runAux, List.foldl_cons, ← PhysicsSystem.runAux,
        hrec.1, hstep.1]
    · rw [PhysicsSystem.runAux, List.foldl_cons, ← PhysicsSystem.runAux,
        hrec.2.1, hstep.2.1]
    · rw [PhysicsSystem.runAux, List.foldl_cons, ← PhysicsSystem.runAux,
        hrec.2.2.1, hstep.2.2.1]
    · intro i hi
      have hik : i ≠ k := fun hc => hi (hc ▸ List.mem_cons_self k ks)
      have hiks : i ∉ ks := fun hc => hi (List.mem_cons_of_mem k hc)
      have h1 := (hrec.2.2.2 i hiks).1
      have h2 := (hrec.2.2.2 i hiks).2
      have h3 := (hstep.2.2.2 i hik).1
      have h4 := (hstep.2.2.2 i hik).2
      constructor
      · rw [PhysicsSystem.runAux, List.foldl_cons, ← PhysicsSystem.runAux,
          h1, h3]
      · rw [PhysicsSystem.runAux, List.foldl_cons, ← PhysicsSystem.runAux,
          h2, h4]

theorem run_decompose (T : Trig) (dt : ℚ) (w : World) (i : Nat)
    (hi : i < w.states.length) :
    PhysicsSystem.run T dt w =
      PhysicsSystem.runAux T dt
        (PhysicsSystem.stepEntity T dt (PhysicsSystem.stateBefore T dt w i) i)
        (List.range' (i + 1) (w.states.length - 1 - i)) := by
  have hsplit : List.range w.states.length =
      List.range i ++ i :: List.range' (i + 1) (w.states.length - 1 - i) := by
    rw [List.range_eq_range']
    have h1 : List.range' 0 i ++ List.range' (0 + 1 * i) (w.states.length - i) =
        List.range' 0 (w.states.length - i + i) :=
      List.range'_append 0 i (w.states.length - i) 1
    have h2 : w.states.length - i + i = w.states.length := by omega
    rw [h2] at h1
    rw [← h1]
    have h3 : w.states.length - i = (w.states.length - 1 - i) + 1 := by omega
    rw [h3, List.range'_succ]
    simp [List.range_eq_range']
  rw [PhysicsSystem.run, PhysicsSystem.runAux, hsplit, List.foldl_append,
    List.foldl_cons]
  rfl

theorem collide_flag_false (T : Trig) (w : World) (i : Nat)
    (pos : PositionComponent) (phys : PhysicsComponent) (delta0 : Vector)
    (h : (PhysicsSystem.collide T w i pos phys delta0).2 = false) :
    (PhysicsSystem.collide T w i pos phys delta0).1 = delta0 := by
  unfold PhysicsSystem.collide at h ⊢
  generalize (List.range w.states.length) = js at h ⊢
  suffices key : ∀ (js : List Nat) (acc : Vector × Bool),
      (acc.2 = false → acc.1 = delta0) →
      ((js.foldl _ acc).2 = false → (js.foldl _ acc).1 = delta0) from
    key js (delta0, false) (fun _ => rfl) h
  intro js
  induction js with
  | nil => intro acc hacc hf; exact hacc hf
  | cons j js ih =>
    intro acc hacc hf
    rw [List.foldl_cons] at hf ⊢
    refine ih _ ?_ hf
    intro hstep
    by_cases hij : j = i
    · simp only [hij, if_pos rfl] at hstep ⊢
      exact hacc hstep
    · simp only [if_neg hij] at hstep ⊢
      rcases hpj : w.positions.getD j none with _ | posj <;>
        rcases hfj : w.physics.getD j none with _ | physj <;>
          simp only [hpj, hfj] at hstep ⊢
      · exact hacc hstep
      · exact hacc hstep
      · exact hacc hstep
      · split at hstep
        next => simp at hstep
        next hhit =>
          rw [if_neg hhit]
          exact hacc hstep

/-! ## Claim C1 — displacement of a collision-free entity -/

/-- C1 (spec-modelled physics): an entity with Position and Physics that
collides with nothing when it is processed has its Position changed, by
the end of `run`, exactly to its old Position plus the vector
`velocity * Δt` — which, by `impl Mul<f32> for Vector`, has the same
direction as the velocity and magnitude scaled by `Δt`. -/
theorem physics_no_collision_moves_by_velocity_dt (T : Trig) (dt : ℚ)
    (w : World) (i : Nat) (pos : PositionComponent)
    (phys : PhysicsComponent) (hwf : w.wf)
    (hpos : w.positions.getD i none = some pos)
    (hphys : w.physics.getD i none = some phys)
    (hnohit : (PhysicsSystem.collide T (PhysicsSystem.stateBefore T dt w i) i
        pos phys (phys.velocity.mul dt)).2 = false) :
    (PhysicsSystem.run T dt w).positions.getD i none =
      some (pos.apply_vector T (phys.velocity.mul dt)) ∧
    (phys.velocity.mul dt).dir = phys.velocity.dir ∧
    (phys.velocity.mul dt).mag = phys.velocity.mag * dt := by
  have hilen : i < w.states.length := hwf.1 ▸ lt_of_getD_eq_some hpos
  have hsb := runAux_frame T dt (List.range i) w
  have hsbpos : (PhysicsSystem.stateBefore T dt w i).positions.getD i none =
      some pos := by
    rw [PhysicsSystem.stateBefore,
      (hsb.2.2.2 i (by simp [List.mem_range])).1, hpos]
  have hsbphys : (PhysicsSystem.stateBefore T dt w i).physics.getD i none =
      some phys := by
    rw [PhysicsSystem.stateBefore, hsb.1, hphys]
  have hdecomp := run_decompose T dt w i hilen
  have hback := runAux_frame T dt
    (List.range' (i + 1) (w.states.length - 1 - i))
    (PhysicsSystem.stepEntity T dt (PhysicsSystem.stateBefore T dt w i) i)
  have hnotmem : i ∉ List.range' (i + 1) (w.states.length - 1 - i) := by
    intro hc
    rw [List.mem_range'] at hc
    omega
  have hstep : (PhysicsSystem.stepEntity T dt
      (PhysicsSystem.stateBefore T dt w i) i).positions.getD i none =
      some (pos.apply_vector T (phys.velocity.mul dt)) := by
    unfold PhysicsSystem.stepEntity
    rw [hsbpos, hsbphys]
    simp only []
    have hflag := collide_flag_false T (PhysicsSystem.stateBefore T dt w i) i
      pos phys (phys.velocity.mul dt) hnohit
    rw [hflag]
    have hiplen : i < (PhysicsSystem.stateBefore T dt w i).positions.length :=
      lt_of_getD_eq_some hsbpos
    rw [List.getD_eq_getElem?_getD, List.getElem?_set_self hiplen]
    rfl
  refine ⟨?_, rfl, rfl⟩
  rw [hdecomp, (hback.2.2.2 i hnotmem).1, hstep]

/-- C1 witness: a one-entity world (nothing to collide with); its
position moves by `velocity * Δt`. -/
theorem physics_no_collision_moves_by_velocity_dt_witness :
    (World.mk "lake" [∅] [some ⟨0, 0⟩]
        [some ⟨⟨0, 0, 1, 1⟩, 1, true, ⟨0, 1⟩⟩] [none] [none] [none]).wf ∧
    (PhysicsSystem.run trig0 1
        (World.mk "lake" [∅] [some ⟨0, 0⟩]
          [some ⟨⟨0, 0, 1, 1⟩, 1, true, ⟨0, 1⟩⟩] [none] [none]
          [none])).positions.getD 0 none =
      some (PositionComponent.apply_vector ⟨0, 0⟩ trig0
        (Vector.mul ⟨0, 1⟩ 1)) := by
  refine ⟨by decide, ?_⟩
  exact (physics_no_collision_moves_by_velocity_dt trig0 1
    (World.mk "lake" [∅] [some ⟨0, 0⟩]
      [some ⟨⟨0, 0, 1, 1⟩, 1, true, ⟨0, 1⟩⟩] [none] [none] [none]) 0 ⟨0, 0⟩
    ⟨⟨0, 0, 1, 1⟩, 1, true, ⟨0, 1⟩⟩ (by decide) rfl rfl (by rfl)).1

/-! ## Claim C2 — the `"colliding"` tag -/

/-- C2 (spec-modelled physics): an entity whose speculative per-axis
footprints intersect some other entity's footprint when it is processed
(regardless of the `physical` flags) ends `run` with `"colliding"` in
its tag set, and an entity with no collision ends `run` without it. -/
theorem physics_colliding_tag (T : Trig) (dt : ℚ) (w : World) (i : Nat)
    (pos : PositionComponent) (phys : PhysicsComponent) (hwf : w.wf)
    (hpos : w.positions.getD i none = some pos)
    (hphys : w.physics.getD i none = some phys) :
    ((PhysicsSystem.collide T (PhysicsSystem.stateBefore T dt w i) i pos phys
        (phys.velocity.mul dt)).2 = true →
      "colliding" ∈ (PhysicsSystem.run T dt w).states.getD i ∅) ∧
    ((PhysicsSystem.collide T (PhysicsSystem.stateBefore T dt w i) i pos phys
        (phys.velocity.mul dt)).2 = false →
      "colliding" ∉ (PhysicsSystem.run T dt w).states.getD i ∅) := by
  have hilen : i < w.states.length := hwf.1 ▸ lt_of_getD_eq_some hpos
  have hsb := runAux_frame T dt (List.range i) w
  have hsbpos : (PhysicsSystem.stateBefore T dt w i).positions.getD i none =
      some pos := by
    rw [PhysicsSystem.stateBefore,
      (hsb.2.2.2 i (by simp [List.mem_range])).1, hpos]
  have hsbphys : (PhysicsSystem.stateBefore T dt w i).physics.getD i none =
      some phys := by
    rw [PhysicsSystem.stateBefore, hsb.1, hphys]
  have hsblen : (PhysicsSystem.stateBefore T dt w i).states.length =
      w.states.length := by
    rw [PhysicsSystem.stateBefore, hsb.2.1]
  have hdecomp := run_decompose T dt w i hilen
  have hback := runAux_frame T dt
    (List.range' (i + 1) (w.states.length - 1 - i))
    (PhysicsSystem.stepEntity T dt (PhysicsSystem.stateBefore T dt w i) i)
  have hnotmem : i ∉ List.range' (i + 1) (w.states.length - 1 - i) := by
    intro hc
    rw [List.mem_range'] at hc
    omega
  have hrun : (PhysicsSystem.run T dt w).states.getD i ∅ =
      (PhysicsSystem.stepEntity T dt (PhysicsSystem.stateBefore T dt w i)
        i).states.getD i ∅ := by
    rw [hdecomp, (hback.2.2.2 i hnotmem).2]
  have hstep : (PhysicsSystem.stepEntity T dt
      (PhysicsSystem.stateBefore T dt w i) i).states.getD i ∅ =
      (if (PhysicsSystem.collide T (PhysicsSystem.stateBefore T dt w i) i pos
          phys (phys.velocity.mul dt)).2 then
        insert "colliding" ((PhysicsSystem.stateBefore T dt w i).states.getD i ∅)
      else
        ((PhysicsSystem.stateBefore T dt w i).states.getD i ∅).erase
          "colliding") := by
    unfold PhysicsSystem.stepEntity
    rw [hsbpos, hsbphys]
    simp only []
    rw [List.getD_eq_getElem?_getD, List.getElem?_set_self (by omega)]
    rfl
  rw [hrun, hstep]
  constructor
  · intro hc
    rw [hc, if_pos rfl]
    exact Finset.mem_insert_self _ _
  · intro hc
    rw [hc]
    simp only [Bool.false_eq_true, if_false]
    exact Finset.not_mem_erase _ _

/-- C2 witness: two coincident stationary entities collide; after the
run, entity 0 carries the `"colliding"` tag. -/
theorem physics_colliding_tag_witness :
    (World.mk "lake" [∅, ∅]
        [some ⟨0, 0⟩, some ⟨0, 0⟩]
        [some ⟨⟨0, 0, 2, 2⟩, 2, true, ⟨0, 0⟩⟩,
          some ⟨⟨0, 0, 2, 2⟩, 2, true, ⟨0, 0⟩⟩]
        [none, none] [none, none] [none, none]).wf ∧
    (PhysicsSystem.collide trig0
        (PhysicsSystem.stateBefore trig0 1
          (World.mk "lake" [∅, ∅]
            [some ⟨0, 0⟩, some ⟨0, 0⟩]
            [some ⟨⟨0, 0, 2, 2⟩, 2, true, ⟨0, 0⟩⟩,
              some ⟨⟨0, 0, 2, 2⟩, 2, true, ⟨0, 0⟩⟩]
            [none, none] [none, none] [none, none]) 0) 0 ⟨0, 0⟩
        ⟨⟨0, 0, 2, 2⟩, 2, true, ⟨0, 0⟩⟩ (Vector.mul ⟨0, 0⟩ 1)).2 = true ∧
    "colliding" ∈ (PhysicsSystem.run trig0 1
        (World.mk "lake" [∅, ∅]
          [some ⟨0, 0⟩, some ⟨0, 0⟩]
          [some ⟨⟨0, 0, 2, 2⟩, 2, true, ⟨0, 0⟩⟩,
            some ⟨⟨0, 0, 2, 2⟩, 2, true, ⟨0, 0⟩⟩]
          [none, none] [none, none] [none, none])).states.getD 0 ∅ := by
  have hcol : (PhysicsSystem.collide trig0
      (PhysicsSystem.stateBefore trig0 1
        (World.mk "lake" [∅, ∅]
          [some ⟨0, 0⟩, some ⟨0, 0⟩]
          [some ⟨⟨0, 0, 2, 2⟩, 2, true, ⟨0, 0⟩⟩,
            some ⟨⟨0, 0, 2, 2⟩, 2, true, ⟨0, 0⟩⟩]
          [none, none] [none, none] [none, none]) 0) 0 ⟨0, 0⟩
      ⟨⟨0, 0, 2, 2⟩, 2, true, ⟨0, 0⟩⟩ (Vector.mul ⟨0, 0⟩ 1)).2 = true := by
    norm_num [PhysicsSystem.collide, PhysicsSystem.stateBefore,
      PhysicsSystem.runAux, footprint, Rect.after_position, Rect.after_depth,
      Rect.has_intersection, Vector.x, Vector.y, Vector.mul, trig0,
      List.range_succ, List.getD]
  refine ⟨by decide, hcol, ?_⟩
  exact (physics_colliding_tag trig0 1
    (World.mk "lake" [∅, ∅]
      [some ⟨0, 0⟩, some ⟨0, 0⟩]
      [some ⟨⟨0, 0, 2, 2⟩, 2, true, ⟨0, 0⟩⟩,
        some ⟨⟨0, 0, 2, 2⟩, 2, true, ⟨0, 0⟩⟩]
      [none, none] [none, none] [none, none]) 0 ⟨0, 0⟩
    ⟨⟨0, 0, 2, 2⟩, 2, true, ⟨0, 0⟩⟩ (by decide) rfl rfl).1 hcol

/-! ## AI phase lemmas (helpers for C8-C10) -/

theorem get?_eq_some_getD {α : Type} (l : List (Option α)) (i : Nat)
    (h : i < l.length) : l.get? i = some (l.getD i none) := by
  rw [List.get?_eq_getElem?, List.getElem?_eq_getElem h,
    List.getD_eq_getElem?_getD, List.getElem?_eq_getElem h]
  rfl

theorem get?_eq_some_getD_any {α : Type} (l : List α) (d : α) (i : Nat)
    (h : i < l.length) : l.get? i = some (l.getD i d) := by
  rw [List.get?_eq_getElem?, List.getElem?_eq_getElem h,
    List.getD_eq_getElem?_getD, List.getElem?_eq_getElem h]
  rfl

theorem lt_of_get?_eq_some {α : Type} {l : List α} {i : Nat} {a : α}
    (h : l.get? i = some a) : i < l.length := by
  rw [List.get?_eq_getElem?] at h
  exact (List.getElem?_eq_some.mp h).1

theorem nearestIdleIdx_some_ne_nil {T : Trig} {path : List (ℚ × ℚ × ℚ)}
    {mlp : ℚ × ℚ} {m : Nat} (h : AISystem.nearestIdleIdx T path mlp = some m) :
    path ≠ [] := by
  intro hnil
  subst hnil
  simp [AISystem.nearestIdleIdx, AISystem.argminFirst] at h

theorem reloadMonster_ai_eq {ai : AISystem} {w : World} {r : AISystem × World}
    (h : AISystem.reloadMonster ai w = some r) : r.1 = ai := by
  unfold AISystem.reloadMonster at h
  split at h
  · simp only [Option.bind_eq_bind, Option.bind_eq_some] at h
    obtain ⟨pm, _, h2⟩ := h
    split at h2
    · simp only [Option.bind_eq_bind, Option.bind_eq_some, Option.pure_def,
        Option.some.injEq] at h2
      obtain ⟨w3, _, h3⟩ := h2
      rw [← h3]
    · simp only [Option.pure_def, Option.some.injEq] at h2
      rw [← h2]
  · simp only [Option.pure_def, Option.some.injEq] at h
    rw [← h]

theorem worldSwitch_invariant {T : Trig} {now : ℚ} {ai : AISystem} {w : World}
    {r : AISystem × World} (h : AISystem.worldSwitch T now ai w = some r) :
    r.1.idle_path = ai.idle_path ∧
    (r.1.next_idle = ai.next_idle ∨
      (0 < ai.idle_path.length ∧ r.1.next_idle < ai.idle_path.length)) := by
  unfold AISystem.worldSwitch at h
  split at h
  · split at h
    · simp only [Option.bind_eq_bind, Option.bind_eq_some, Option.pure_def,
        Option.some.injEq] at h
      obtain ⟨w3, _, h2⟩ := h
      rw [← h2]
      exact ⟨rfl, Or.inl rfl⟩
    · simp only [Option.bind_eq_bind, Option.bind_eq_some] at h
      obtain ⟨pm, _, h2⟩ := h
      rcases pm with _ | posm
      · simp only [Option.pure_def, Option.some.injEq] at h2
        rw [← h2]
        exact ⟨rfl, Or.inl rfl⟩
      · simp only [Option.bind_eq_bind, Option.bind_eq_some] at h2
        obtain ⟨st, _, h3⟩ := h2
        split at h3
        · simp only [Option.bind_eq_bind, Option.some_bind, Option.bind_eq_some,
            Option.pure_def, Option.some.injEq] at h3
          obtain ⟨php, _, ph, _, pop, _, po, _, w4, _, h5⟩ := h3
          rw [← h5]
          exact ⟨rfl, Or.inl rfl⟩
        · simp only [Option.bind_eq_bind, Option.some_bind, Option.bind_eq_some,
            Option.pure_def, Option.some.injEq] at h3
          obtain ⟨mindex, _, p, hp, w4, _, h5⟩ := h3
          have hlt : mindex < ai.idle_path.length := lt_of_get?_eq_some hp
          rw [← h5]
          refine ⟨rfl, Or.inr ⟨by omega, ?_⟩⟩
          exact Nat.mod_lt _ (by omega)
  · simp only [Option.pure_def, Option.some.injEq] at h
    rw [← h]
    exact ⟨rfl, Or.inl rfl⟩

theorem applyTeleport_ai_eq {ai : AISystem} {w : World} {r : AISystem × World}
    (h : AISystem.applyTeleport ai w = some r) :
    r.1 = { ai with awaiting_teleport := false } := by
  unfold AISystem.applyTeleport at h
  simp only [Option.bind_eq_bind, Option.bind_eq_some, Option.pure_def,
    Option.some.injEq] at h
  obtain ⟨php, _, ph, _, w4, _, h2⟩ := h
  rw [← h2]

theorem checkAggro_invariant {T : Trig} {now : ℚ} {ai : AISystem} {w : World}
    {r : AISystem × World} (h : AISystem.checkAggro T now ai w = some r) :
    r.1.idle_path = ai.idle_path ∧ r.1.next_idle = ai.next_idle := by
  unfold AISystem.checkAggro at h
  split at h
  · simp only [Option.bind_eq_bind, Option.bind_eq_some] at h
    obtain ⟨vis, _, h2⟩ := h
    split at h2
    · simp only [Option.bind_eq_bind, Option.bind_eq_some] at h2
      obtain ⟨pop, _, po, _, d, _, h3⟩ := h2
      split at h3
      · simp only [Option.bind_eq_bind, Option.bind_eq_some, Option.pure_def,
          Option.some.injEq] at h3
        obtain ⟨w4, _, h4⟩ := h3
        rw [← h4]
        exact ⟨rfl, rfl⟩
      · simp only [Option.pure_def, Option.some.injEq] at h3
        rw [← h3]
        exact ⟨rfl, rfl⟩
    · simp only [Option.bind_eq_bind, Option.bind_eq_some] at h2
      obtain ⟨st, _, h3⟩ := h2
      split at h3
      · simp only [Option.bind_eq_bind, Option.bind_eq_some, Option.pure_def,
          Option.some.injEq] at h3
        obtain ⟨w4, _, h4⟩ := h3
        rw [← h4]
        exact ⟨rfl, rfl⟩
      · simp only [Option.pure_def, Option.some.injEq] at h3
        rw [← h3]
        exact ⟨rfl, rfl⟩
  · simp only [Option.pure_def, Option.some.injEq] at h
    rw [← h]
    exact ⟨rfl, rfl⟩

theorem behave_invariant {T : Trig} {now : ℚ} {ai : AISystem} {w : World}
    {r : AISystem × World} (h : AISystem.behave T now ai w = some r) :
    r.1.idle_path = ai.idle_path ∧
    (r.1.next_idle = ai.next_idle ∨
      (0 < ai.idle_path.length ∧ r.1.next_idle < ai.idle_path.length)) := by
  unfold AISystem.behave at h
  simp only [Option.bind_eq_bind, Option.bind_eq_some] at h
  obtain ⟨st, _, h2⟩ := h
  split at h2
  · split at h2
    · simp only [Option.bind_eq_bind, Option.bind_eq_some] at h2
      obtain ⟨p, hp, d, _, h3⟩ := h2
      have hlt : ai.next_idle < ai.idle_path.length := lt_of_get?_eq_some hp
      split at h3
      · simp only [Option.pure_def, Option.some.injEq] at h3
        rw [← h3]
        exact ⟨rfl, Or.inr ⟨by omega, Nat.mod_lt _ (by omega)⟩⟩
      · simp only [Option.bind_eq_bind, Option.bind_eq_some, Option.pure_def,
          Option.some.injEq] at h3
        obtain ⟨w4, _, h4⟩ := h3
        rw [← h4]
        exact ⟨rfl, Or.inl rfl⟩
    · split at h2
      · simp only [Option.bind_eq_bind, Option.bind_eq_some] at h2
        obtain ⟨d, _, h3⟩ := h2
        split at h3
        · simp only [Option.bind_eq_bind, Option.bind_eq_some, Option.pure_def,
            Option.some.injEq] at h3
          obtain ⟨w4, _, h4⟩ := h3
          rw [← h4]
          exact ⟨rfl, Or.inl rfl⟩
        · simp only [Option.bind_eq_bind, Option.bind_eq_some, Option.pure_def,
            Option.some.injEq] at h3
          obtain ⟨w4, _, h4⟩ := h3
          rw [← h4]
          exact ⟨rfl, Or.inl rfl⟩
      · simp only [Option.bind_eq_bind, Option.bind_eq_some] at h2
        obtain ⟨sd, hsd, h3⟩ := h2
        have hlen : 0 < ai.idle_path.length := by
          unfold AISystem.sim_dist at hsd
          rcases hq : ai.idle_path.get? ai.next_idle with _ | p
          · rw [hq] at hsd; cases hsd
          · exact Nat.lt_of_le_of_lt (Nat.zero_le _) (lt_of_get?_eq_some hq)
        split at h3
        · simp only [Option.bind_eq_bind, Option.some_bind, Option.bind_eq_some,
            Option.pure_def, Option.some.injEq] at h3
          obtain ⟨p, _, lp, _, h5⟩ := h3
          rw [← h5]
          exact ⟨rfl, Or.inr ⟨hlen, Nat.mod_lt _ hlen⟩⟩
        · simp only [Option.bind_eq_bind, Option.some_bind, Option.bind_eq_some,
            Option.pure_def, Option.some.injEq] at h3
          obtain ⟨p, _, lp, _, h5⟩ := h3
          rw [← h5]
          exact ⟨rfl, Or.inl rfl⟩
  · split at h2
    · simp only [Option.bind_eq_bind, Option.bind_eq_some, Option.pure_def,
        Option.some.injEq] at h2
      obtain ⟨php, _, ph, _, pop, _, po, _, w4, _, h3⟩ := h2
      rw [← h3]
      exact ⟨rfl, Or.inl rfl⟩
    · split at h2
      · simp only [Option.bind_eq_bind, Option.bind_eq_some] at h2
        obtain ⟨w3, _, h3⟩ := h2
        split at h3
        · simp only [Option.bind_eq_bind, Option.bind_eq_some, Option.pure_def,
            Option.some.injEq] at h3
          obtain ⟨w4, _, mindex, hm, h4⟩ := h3
          have hne := nearestIdleIdx_some_ne_nil hm
          have hlen : 0 < ai.idle_path.length := by
            cases hq : ai.idle_path with
            | nil => exact absurd hq hne
            | cons a l => simp [hq]
          rw [← h4]
          exact ⟨rfl, Or.inr ⟨hlen, Nat.mod_lt _ hlen⟩⟩
        · simp only [Option.pure_def, Option.some.injEq] at h3
          rw [← h3]
          exact ⟨rfl, Or.inl rfl⟩
      · simp only [Option.pure_def, Option.some.injEq] at h2
        rw [← h2]
        exact ⟨rfl, Or.inl rfl⟩

/-! ## Claim C10 — `next_idle` stays in bounds -/

/-- C10: if `idle_path` is non-empty and `next_idle` is in bounds before
a `run` call, then after any completed `run` call `idle_path` is
unchanged and `next_idle` is again in bounds — every assignment to
`next_idle` inside `run` is taken modulo `idle_path.len()`. -/
theorem ai_run_next_idle_in_bounds (T : Trig) (now : ℚ) (ai : AISystem)
    (w : World) (ai2 : AISystem) (w2 : World)
    (hne : ai.idle_path ≠ []) (hlt : ai.next_idle < ai.idle_path.length)
    (hrun : AISystem.run T now ai w = some (ai2, w2)) :
    ai2.idle_path = ai.idle_path ∧ ai2.next_idle < ai2.idle_path.length := by
  unfold AISystem.run at hrun
  simp only [Option.bind_eq_bind, Option.bind_eq_some] at hrun
  obtain ⟨⟨aiA, wA⟩, hA, hrun⟩ := hrun
  have eA : aiA = ai := reloadMonster_ai_eq hA
  obtain ⟨⟨aiB, wB⟩, hB, hrun⟩ := hrun
  have eB := worldSwitch_invariant hB
  dsimp only at eB
  rw [eA] at eB
  split at hrun
  · split at hrun
    · simp only [Option.pure_def, Option.some.injEq, Prod.mk.injEq] at hrun
      obtain ⟨h1, _⟩ := hrun
      subst h1
      rcases eB.2 with h | h
      · exact ⟨eB.1, by rw [eB.1]; omega⟩
      · exact ⟨eB.1, by rw [eB.1]; omega⟩
    · simp only [Option.bind_eq_bind, Option.bind_eq_some] at hrun
      obtain ⟨⟨aiC, wC⟩, hC, hrun⟩ := hrun
      have eC : aiC = { aiB with awaiting_teleport := false } :=
        applyTeleport_ai_eq hC
      obtain ⟨⟨aiD, wD⟩, hD, hrun⟩ := hrun
      have eD := checkAggro_invariant hD
      dsimp only at eD
      have eE := behave_invariant hrun
      dsimp only at eE
      have hip : ai2.idle_path = ai.idle_path := by
        rw [eE.1, eD.1, eC, ← eB.1]
      refine ⟨hip, ?_⟩
      have hCn : aiC.next_idle = aiB.next_idle := by rw [eC]
      have hCp : aiC.idle_path = aiB.idle_path := by rw [eC]
      rw [hip]
      rcases eE.2 with h5 | h5
      · rw [h5, eD.2, hCn]
        rcases eB.2 with h6 | h6
        · rw [h6]; exact hlt
        · exact h6.2
      · rw [eD.1, hCp, eB.1] at h5
        omega
  · simp only [Option.bind_eq_bind, Option.bind_eq_some] at hrun
    obtain ⟨⟨aiD, wD⟩, hD, hrun⟩ := hrun
    have eD := checkAggro_invariant hD
    dsimp only at eD
    have eE := behave_invariant hrun
    dsimp only at eE
    have hip : ai2.idle_path = ai.idle_path := by
      rw [eE.1, eD.1, ← eB.1]
    refine ⟨hip, ?_⟩
    rw [hip]
    rcases eE.2 with h5 | h5
    · rw [h5, eD.2]
      rcases eB.2 with h6 | h6
      · rw [h6]; exact hlt
      · exact h6.2
    · rw [eD.1, eB.1] at h5
      omega

/-- C10 witness: a concrete completed `run` call (monster tracked in a
scene other than the loaded one, no tags set) keeps `next_idle` in
bounds. -/
theorem ai_run_next_idle_in_bounds_witness :
    ([((0 : ℚ), (0 : ℚ), (1 : ℚ))] : List (ℚ × ℚ × ℚ)) ≠ [] ∧
    (AISystem.mk 0 [(0, 0, 1)] 0 0 0 0 0 "a" 0 false (0, 0) (0, 0)).next_idle <
      (AISystem.mk 0 [(0, 0, 1)] 0 0 0 0 0 "a" 0 false (0, 0)
        (0, 0)).idle_path.length ∧
    (AISystem.mk 0 [(0, 0, 1)] 0 0 0 0 0 "a" 0 false (0, 0)
        (0, 0)).next_idle <
      (AISystem.mk 0 [(0, 0, 1)] 0 0 0 0 0 "a" 0 false (0, 0)
        (0, 0)).idle_path.length := by
  refine ⟨by decide, by decide, ?_⟩
  exact (ai_run_next_idle_in_bounds trig0 0
    (AISystem.mk 0 [(0, 0, 1)] 0 0 0 0 0 "a" 0 false (0, 0) (0, 0))
    (World.mk "b" [∅, ∅] [some ⟨0, 0⟩, none] [none, none] [none, none]
      [none, none] [none, none])
    (AISystem.mk 0 [(0, 0, 1)] 0 0 0 0 0 "a" 0 false (0, 0) (0, 0))
    (World.mk "b" [∅, ∅] [some ⟨0, 0⟩, none] [none, none] [none, none]
      [none, none] [none, none])
    (by decide) (by decide) (by decide)).2

/-! ## Claim C8 — the idle-waypoint advance -/

/-- C8: when the monster is tagged `"idle"`, both the loaded world and
the monster's world are `"lake"`, no teleport is pending, the player is
visible but not within aggro range (so no aggro transition fires), and
the monster's footprint is within 2.0 world-units of
`idle_path[next_idle]`, then `run` advances `next_idle` to
`(next_idle + 1) mod idle_path.len()`, records the current time in
`last_idle_time`, and applies no movement: the world is returned
completely unchanged.  Applied each tick, this cycles a 2-point path
`0, 1, 0, 1, …` forever. -/
theorem ai_run_idle_advance (T : Trig) (now : ℚ) (ai : AISystem) (w : World)
    (st : Finset String) (po : PositionComponent) (dst : ℚ × ℚ × ℚ)
    (d1 d2 : ℚ)
    (hml : ai.monster_world = "lake") (hcl : w.current_world = "lake")
    (hnt : ai.awaiting_teleport = false)
    (hplen : 2 ≤ w.positions.length) (hslen : 2 ≤ w.states.length)
    (hpm : (w.positions.getD MID none).isSome = true)
    (hst : w.states.getD MID ∅ = st) (hidle : "idle" ∈ st)
    (hvis : AISystem.player_visible w = some true)
    (hppos : w.positions.getD PID none = some po)
    (hd1 : AISystem.dist T w po.x po.y = some d1)
    (hfar : ¬ d1 < ai.aggro_distance)
    (hdst : ai.idle_path.get? ai.next_idle = some dst)
    (hd2 : AISystem.dist T w dst.1 dst.2.1 = some d2) (hnear : d2 < 2) :
    AISystem.run T now ai w =
      some ({ ai with next_idle := (ai.next_idle + 1) % ai.idle_path.length,
                      last_idle_time := now }, w) := by
  obtain ⟨pm, hpm2⟩ := Option.isSome_iff_exists.mp hpm
  have hreload : AISystem.reloadMonster ai w = some (ai, w) := by
    unfold AISystem.reloadMonster
    rw [if_pos ⟨hml, hcl⟩,
      get?_eq_some_getD _ _ (by simp only [MID]; omega), hpm2]
    rfl
  have hswitch : AISystem.worldSwitch T now ai w = some (ai, w) := by
    unfold AISystem.worldSwitch
    rw [if_neg (by simp [hml, hcl])]
    rfl
  have hcheck : AISystem.checkAggro T now ai w = some (ai, w) := by
    unfold AISystem.checkAggro
    rw [if_pos (by rw [hcl, hml])]
    rw [hvis]
    simp only [Option.bind_eq_bind, Option.some_bind, if_pos rfl, if_true]
    rw [get?_eq_some_getD _ _ (by simp only [PID]; omega), hppos]
    simp only [Option.bind_eq_bind, Option.some_bind]
    rw [hd1]
    simp only [Option.bind_eq_bind, Option.some_bind]
    rw [if_neg hfar]
    rfl
  have hbehave : AISystem.behave T now ai w =
      some ({ ai with next_idle := (ai.next_idle + 1) % ai.idle_path.length,
                      last_idle_time := now }, w) := by
    unfold AISystem.behave
    rw [get?_eq_some_getD_any w.states ∅ MID (by simp only [MID]; omega), hst]
    simp only [Option.bind_eq_bind, Option.some_bind]
    rw [if_pos hidle, if_pos ⟨hcl, hml⟩, hdst]
    simp only [Option.bind_eq_bind, Option.some_bind]
    rw [hd2]
    simp only [Option.bind_eq_bind, Option.some_bind]
    rw [if_pos hnear]
    rfl
  unfold AISystem.run
  rw [hreload]
  simp only [Option.bind_eq_bind, Option.some_bind]
  rw [hswitch]
  simp only [Option.bind_eq_bind, Option.some_bind]
  rw [if_neg (by rw [hnt]; exact Bool.false_ne_true)]
  rw [hcheck]
  simp only [Option.bind_eq_bind, Option.some_bind]
  exact hbehave

/-- C8 witness: a concrete lake-world scene with a 2-point idle path and
the monster within range of waypoint 0; `run` advances `next_idle` to
`(0 + 1) % 2` and returns the world unchanged. -/
theorem ai_run_idle_advance_witness :
    "idle" ∈ ({"idle"} : Finset String) ∧ (0 : ℚ) < 2 ∧
    AISystem.run trig0 0
      (AISystem.mk 0 [(0, 0, 1), (10, 0, 1)] 0 0 0 0 0 "lake" 0 false (0, 0)
        (0, 0))
      (World.mk "lake" [∅, {"idle"}] [some ⟨0, 0⟩, some ⟨3, 3⟩]
        [some ⟨⟨0, 0, 1, 1⟩, 1, true, ⟨0, 0⟩⟩,
          some ⟨⟨0, 0, 1, 1⟩, 1, true, ⟨0, 0⟩⟩]
        [none, none] [none, none] [none, none]) =
      some ({ AISystem.mk 0 [(0, 0, 1), (10, 0, 1)] 0 0 0 0 0 "lake" 0 false
          (0, 0) (0, 0) with
            next_idle := (0 + 1) %
              ([((0 : ℚ), (0 : ℚ), (1 : ℚ)), (10, 0, 1)] : List (ℚ × ℚ × ℚ)).length,
            last_idle_time := 0 },
        World.mk "lake" [∅, {"idle"}] [some ⟨0, 0⟩, some ⟨3, 3⟩]
          [some ⟨⟨0, 0, 1, 1⟩, 1, true, ⟨0, 0⟩⟩,
            some ⟨⟨0, 0, 1, 1⟩, 1, true, ⟨0, 0⟩⟩]
          [none, none] [none, none] [none, none]) := by
  refine ⟨by decide, by decide, ?_⟩
  exact ai_run_idle_advance trig0 0
    (AISystem.mk 0 [(0, 0, 1), (10, 0, 1)] 0 0 0 0 0 "lake" 0 false (0, 0)
      (0, 0))
    (World.mk "lake" [∅, {"idle"}] [some ⟨0, 0⟩, some ⟨3, 3⟩]
      [some ⟨⟨0, 0, 1, 1⟩, 1, true, ⟨0, 0⟩⟩,
        some ⟨⟨0, 0, 1, 1⟩, 1, true, ⟨0, 0⟩⟩]
      [none, none] [none, none] [none, none])
    {"idle"} ⟨0, 0⟩ (0, 0, 1) 0 0 rfl rfl rfl (by decide) (by decide)
    (by decide) (by decide) (by decide) (by decide) (by decide) (by decide)
    (by decide) (by decide) (by decide) (by decide)

/-! ## Claim C9 — totality of the per-tick systems -/

/-- C9 counterexample: `AISystem::run` does *not* complete when the
monster entity lacks its Graphics component — a lake-world scene with
the monster tagged `"idle"` and away from its waypoint reaches
`goto`, whose `world.graphics[MID].as_mut().unwrap()` panics
(modelled as `none`). -/
theorem ai_run_panics_without_graphics :
    AISystem.run trig5 0
      (AISystem.mk 0 [(10, 0, 1)] 0 0 0 0 0 "lake" 0 false (0, 0) (0, 0))
      (World.mk "lake" [∅, {"idle"}] [some ⟨0, 0⟩, some ⟨0, 0⟩]
        [some ⟨⟨0, 0, 1, 1⟩, 1, true, ⟨0, 0⟩⟩,
          some ⟨⟨0, 0, 1, 1⟩, 1, true, ⟨0, 0⟩⟩]
        [none, none] [none, none] [none, none]) = none := by
  decide

theorem physicalEntities_get01 (w : World) (p0 p1 : PositionComponent)
    (f0 f1 : PhysicsComponent) (hsl : 2 ≤ w.states.length)
    (hp0 : w.positions.getD 0 none = some p0)
    (hf0 : w.physics.getD 0 none = some f0)
    (hp1 : w.positions.getD 1 none = some p1)
    (hf1 : w.physics.getD 1 none = some f1) :
    (AISystem.physicalEntities w).get? 0 = some ⟨0, w.states.getD 0 ∅, p0, f0⟩ ∧
    (AISystem.physicalEntities w).get? 1 = some ⟨1, w.states.getD 1 ∅, p1, f1⟩ := by
  unfold AISystem.physicalEntities
  obtain ⟨m, hm⟩ : ∃ m, w.states.length = m + 2 :=
    ⟨w.states.length - 2, by omega⟩
  have hr : List.range w.states.length = 0 :: 1 :: List.range' 2 m := by
    rw [hm, List.range_eq_range', List.range'_succ, List.range'_succ]
  rw [hr]
  simp only [List.filterMap_cons, hp0, hf0, hp1, hf1]
  exact ⟨rfl, rfl⟩

theorem player_visible_total (w : World) (p0 p1 : PositionComponent)
    (f0 f1 : PhysicsComponent) (hsl : 2 ≤ w.states.length)
    (hp0 : w.positions.getD 0 none = some p0)
    (hf0 : w.physics.getD 0 none = some f0)
    (hp1 : w.positions.getD 1 none = some p1)
    (hf1 : w.physics.getD 1 none = some f1) :
    ∃ b, AISystem.player_visible w = some b := by
  obtain ⟨h0, h1⟩ := physicalEntities_get01 w p0 p1 f0 f1 hsl hp0 hf0 hp1 hf1
  unfold AISystem.player_visible
  dsimp only
  rw [show MID = 1 from rfl, show PID = 0 from rfl, h1, h0]
  simp only [Option.bind_eq_bind, Option.some_bind]
  exact ⟨_, rfl⟩

theorem ai_dist_total (T : Trig) (w : World) (x y : ℚ)
    (p1 : PositionComponent) (f1 : PhysicsComponent)
    (hp1 : w.positions.getD MID none = some p1)
    (hf1 : w.physics.getD MID none = some f1)
    (hpl : 2 ≤ w.positions.length) (hfl : 2 ≤ w.physics.length) :
    AISystem.dist T w x y =
      some (T.sqrt (((footprint p1 f1).y - y) ^ 2 +
        ((footprint p1 f1).x - x) ^ 2)) := by
  unfold AISystem.dist
  rw [get?_eq_some_getD _ _ (by simp only [MID]; omega), hf1]
  simp only [Option.bind_eq_bind, Option.some_bind]
  rw [get?_eq_some_getD _ _ (by simp only [MID]; omega), hp1]
  simp only [Option.bind_eq_bind, Option.some_bind]
  rfl

theorem goto_total (T : Trig) (w : World) (x y speed : ℚ)
    (p1 : PositionComponent) (f1 : PhysicsComponent) (g1 : GraphicsComponent)
    (hp1 : w.positions.getD MID none = some p1)
    (hf1 : w.physics.getD MID none = some f1)
    (hg1 : w.graphics.getD MID none = some g1)
    (hpl : 2 ≤ w.positions.length) (hfl : 2 ≤ w.physics.length)
    (hgl : 2 ≤ w.graphics.length) (hsl : 2 ≤ w.states.length) :
    ∃ w2, AISystem.goto T w x y speed = some w2 ∧
      w2.positions = w.positions ∧ w2.states.length = w.states.length ∧
      w2.current_world = w.current_world := by
  unfold AISystem.goto
  rw [get?_eq_some_getD _ _ (by simp only [MID]; omega), hf1]
  simp only [Option.bind_eq_bind, Option.some_bind]
  rw [get?_eq_some_getD _ _ (by simp only [MID]; omega), hp1]
  simp only [Option.bind_eq_bind, Option.some_bind]
  unfold AISystem.writeStates
  rw [get?_eq_some_getD_any _ ∅ _ (by simp only [MID]; omega)]
  simp only [Option.some_bind]
  rw [get?_eq_some_getD _ _ (by simp [MID, List.length_set]; omega), hg1]
  simp only [Option.bind_eq_bind, Option.some_bind]
  exact ⟨_, rfl, by simp, by simp [List.length_set], rfl⟩

theorem argminFirst_total (l : List ℚ) (hne : l ≠ []) :
    ∃ i, AISystem.argminFirst l = some i := by
  have aux : ∀ (l2 : List ℚ) (acc : Option (Nat × ℚ) × Nat),
      acc.1.isSome = true →
      ((l2.foldl
        (fun (acc : Option (Nat × ℚ) × Nat) v =>
          match acc.1 with
          | none => (some (acc.2, v), acc.2 + 1)
          | some (bi, bv) =>
            if v < bv then (some (acc.2, v), acc.2 + 1)
            else (some (bi, bv), acc.2 + 1))
        acc).1).isSome = true := by
    intro l2
    induction l2 with
    | nil => intro acc h; exact h
    | cons v l2 ih =>
      intro acc h
      rw [List.foldl_cons]
      refine ih _ ?_
      obtain ⟨⟨bi, bv⟩, hbv⟩ := Option.isSome_iff_exists.mp h
      rw [hbv]
      simp only []
      split <;> rfl
  cases l with
  | nil => exact absurd rfl hne
  | cons v l2 =>
    unfold AISystem.argminFirst
    rw [List.foldl_cons]
    have h := aux l2 (some (0, v), 1) rfl
    obtain ⟨⟨bi, bv⟩, hbv⟩ := Option.isSome_iff_exists.mp h
    exact ⟨bi, by rw [hbv]; rfl⟩

theorem nearestIdleIdx_total (T : Trig) (path : List (ℚ × ℚ × ℚ))
    (mlp : ℚ × ℚ) (hne : path ≠ []) :
    ∃ m, AISystem.nearestIdleIdx T path mlp = some m := by
  unfold AISystem.nearestIdleIdx
  exact argminFirst_total _ (by simpa using hne)

theorem ai_dist_total2 (T : Trig) (w : World) (x y : ℚ)
    (p1 : PositionComponent) (f1 : PhysicsComponent)
    (hp1 : w.positions.getD MID none = some p1)
    (hf1 : w.physics.getD MID none = some f1)
    (hpl : 2 ≤ w.positions.length) (hfl : 2 ≤ w.physics.length) :
    ∃ d, AISystem.dist T w x y = some d :=
  ⟨_, ai_dist_total T w x y p1 f1 hp1 hf1 hpl hfl⟩

theorem stop_total (w : World) (f1 : PhysicsComponent)
    (hf1 : w.physics.getD MID none = some f1)
    (hfl : 2 ≤ w.physics.length) (hsl : 2 ≤ w.states.length) :
    ∃ w2, AISystem.stop w = some w2 ∧
      w2.states.length = w.states.length ∧ w2.positions = w.positions := by
  unfold AISystem.stop
  rw [get?_eq_some_getD _ _ (by simp only [MID]; omega), hf1]
  simp only [Option.bind_eq_bind, Option.some_bind]
  rw [get?_eq_some_getD_any _ ∅ _ (by simp only [MID]; omega)]
  simp only [Option.some_bind]
  exact ⟨_, rfl, by simp [List.length_set], rfl⟩

theorem applyTeleport_total (ai : AISystem) (w : World)
    (f1 : PhysicsComponent) (hf1 : w.physics.getD MID none = some f1)
    (hfl : 2 ≤ w.physics.length) (hpl : 2 ≤ w.positions.length) :
    AISystem.applyTeleport ai w =
      some ({ ai with awaiting_teleport := false },
        { w with positions := w.positions.set MID (some ⟨ai.teleport_location.1, ai.teleport_location.2 - (f1.hitbox.h : ℚ)⟩) }) := by
  unfold AISystem.applyTeleport AISystem.writePos
  rw [get?_eq_some_getD _ _ (by simp only [MID]; omega), hf1]
  simp only [Option.bind_eq_bind, Option.some_bind]
  rw [if_pos (by simp only [MID]; omega)]
  simp only [Option.some_bind]
  rfl

theorem checkAggro_total (T : Trig) (now : ℚ) (ai : AISystem) (w : World)
    (p0 p1 : PositionComponent) (f0 f1 : PhysicsComponent)
    (hsl : 2 ≤ w.states.length) (hpl : 2 ≤ w.positions.length)
    (hfl : 2 ≤ w.physics.length)
    (hp0 : w.positions.getD PID none = some p0)
    (hp1 : w.positions.getD MID none = some p1)
    (hf0 : w.physics.getD PID none = some f0)
    (hf1 : w.physics.getD MID none = some f1) :
    ∃ ai2 w2, AISystem.checkAggro T now ai w = some (ai2, w2) ∧
      w2.positions = w.positions ∧ w2.physics = w.physics ∧
      w2.graphics = w.graphics ∧ w2.states.length = w.states.length ∧
      w2.current_world = w.current_world ∧ ai2.idle_path = ai.idle_path ∧
      ai2.next_idle = ai.next_idle := by
  unfold AISystem.checkAggro
  by_cases hc : w.current_world = ai.monster_world
  case neg =>
    rw [if_neg hc]
    exact ⟨ai, w, rfl, rfl, rfl, rfl, rfl, rfl, rfl, rfl⟩
  case pos =>
    rw [if_pos hc]
    obtain ⟨b, hb⟩ := player_visible_total w p0 p1 f0 f1 hsl hp0 hf0 hp1 hf1
    rw [hb]
    simp only [Option.bind_eq_bind, Option.some_bind]
    cases b
    case true =>
      rw [if_pos rfl]
      rw [get?_eq_some_getD _ _ (by simp only [PID]; omega), hp0]
      simp only [Option.bind_eq_bind, Option.some_bind]
      obtain ⟨d, hd⟩ := ai_dist_total2 T w p0.x p0.y p1 f1 hp1 hf1 hpl hfl
      rw [hd]
      simp only [Option.some_bind]
      by_cases hlt : d < ai.aggro_distance
      · rw [if_pos hlt]
        unfold AISystem.writeStates
        rw [get?_eq_some_getD_any _ ∅ _ (by simp only [MID]; omega)]
        simp only [Option.some_bind]
        exact ⟨ai, _, rfl, rfl, rfl, rfl, by simp [List.length_set], rfl,
          rfl, rfl⟩
      · rw [if_neg hlt]
        exact ⟨ai, w, rfl, rfl, rfl, rfl, rfl, rfl, rfl, rfl⟩
    case false =>
      rw [if_neg Bool.false_ne_true]
      rw [get?_eq_some_getD_any _ ∅ _ (by simp only [MID]; omega)]
      simp only [Option.some_bind]
      by_cases ha : "aggro" ∈ w.states.getD MID ∅
      · rw [if_pos ha]
        unfold AISystem.writeStates
        rw [get?_eq_some_getD_any _ ∅ _ (by simp only [MID]; omega)]
        simp only [Option.some_bind]
        exact ⟨_, _, rfl, rfl, rfl, rfl, by simp [List.length_set], rfl,
          rfl, rfl⟩
      · rw [if_neg ha]
        exact ⟨ai, w, rfl, rfl, rfl, rfl, rfl, rfl, rfl, rfl⟩

theorem behave_total (T : Trig) (now : ℚ) (ai : AISystem) (w : World)
    (p0 p1 : PositionComponent) (f0 f1 : PhysicsComponent)
    (g1 : GraphicsComponent)
    (hsl : 2 ≤ w.states.length) (hpl : 2 ≤ w.positions.length)
    (hfl : 2 ≤ w.physics.length) (hgl : 2 ≤ w.graphics.length)
    (hp0 : w.positions.getD PID none = some p0)
    (hp1 : w.positions.getD MID none = some p1)
    (hf0 : w.physics.getD PID none = some f0)
    (hf1 : w.physics.getD MID none = some f1)
    (hg1 : w.graphics.getD MID none = some g1)
    (hni : ai.next_idle < ai.idle_path.length) :
    ∃ r, AISystem.behave T now ai w = some r := by
  have hlen0 : 0 < ai.idle_path.length := by omega
  have hne : ai.idle_path ≠ [] := by
    cases h : ai.idle_path with
    | nil => rw [h] at hlen0; simp at hlen0
    | cons a l => simp
  unfold AISystem.behave
  rw [get?_eq_some_getD_any w.states ∅ MID (by simp only [MID]; omega)]
  simp only [Option.bind_eq_bind, Option.some_bind]
  by_cases hidle : "idle" ∈ w.states.getD MID ∅
  · rw [if_pos hidle]
    by_cases hc1 : w.current_world = "lake" ∧ ai.monster_world = "lake"
    · rw [if_pos hc1, List.get?_eq_get hni]
      simp only [Option.some_bind]
      obtain ⟨d, hd⟩ := ai_dist_total2 T w _ _ p1 f1 hp1 hf1 hpl hfl
      rw [hd]
      simp only [Option.some_bind]
      by_cases hlt : d < 2
      · rw [if_pos hlt]
        exact ⟨_, rfl⟩
      · rw [if_neg hlt]
        obtain ⟨w2, hw2, _⟩ := goto_total T w _ _ 60 p1 f1 g1 hp1 hf1 hg1
          hpl hfl hgl hsl
        rw [hw2]
        simp only [Option.bind_eq_bind, Option.some_bind]
        exact ⟨_, rfl⟩
    · rw [if_neg hc1]
      by_cases hc2 : w.current_world ≠ "lake" ∧ ai.monster_world ≠ "lake"
      · rw [if_pos hc2]
        obtain ⟨d, hd⟩ := ai_dist_total2 T w _ _ p1 f1 hp1 hf1 hpl hfl
        rw [hd]
        simp only [Option.bind_eq_bind, Option.some_bind]
        by_cases hlt : d < 2
        · rw [if_pos hlt]
          unfold AISystem.writePos
          rw [if_pos (by simp only [MID]; omega)]
          simp only [Option.some_bind]
          exact ⟨_, rfl⟩
        · rw [if_neg hlt]
          obtain ⟨w2, hw2, _⟩ := goto_total T w _ _ 60 p1 f1 g1 hp1 hf1 hg1
            hpl hfl hgl hsl
          rw [hw2]
          simp only [Option.bind_eq_bind, Option.some_bind]
          exact ⟨_, rfl⟩
      · rw [if_neg hc2]
        unfold AISystem.sim_dist
        rw [List.get?_eq_get hni]
        dsimp only
        simp only [Option.bind_eq_bind, Option.some_bind]
        by_cases hsd : T.sqrt ((ai.monster_lake_pos.2 -
            (ai.idle_path.get ⟨ai.next_idle, hni⟩).2.1) ^ 2 +
            (ai.monster_lake_pos.1 -
              (ai.idle_path.get ⟨ai.next_idle, hni⟩).1) ^ 2) < 2
        · rw [if_pos hsd]
          simp only [Option.bind_eq_bind, Option.pure_def, Option.some_bind]
          rw [List.get?_eq_get (Nat.mod_lt (ai.next_idle + 1) hlen0)]
          simp only [Option.some_bind]
          rw [List.get?_eq_get (Nat.mod_lt _ hlen0)]
          simp only [Option.some_bind]
          exact ⟨_, rfl⟩
        · rw [if_neg hsd]
          simp only [Option.bind_eq_bind, Option.pure_def, Option.some_bind]
          rw [List.get?_eq_get hni]
          simp only [Option.some_bind]
          rw [List.get?_eq_get (Nat.mod_lt _ hlen0)]
          simp only [Option.some_bind]
          exact ⟨_, rfl⟩
  · rw [if_neg hidle]
    by_cases ha : "aggro" ∈ w.states.getD MID ∅
    · rw [if_pos ha]
      rw [get?_eq_some_getD _ _ (by simp only [PID]; omega), hf0]
      simp only [Option.bind_eq_bind, Option.some_bind]
      rw [get?_eq_some_getD _ _ (by simp only [PID]; omega), hp0]
      simp only [Option.bind_eq_bind, Option.some_bind]
      obtain ⟨w2, hw2, _⟩ := goto_total T w _ _ _ p1 f1 g1 hp1 hf1 hg1
        hpl hfl hgl hsl
      rw [hw2]
      simp only [Option.bind_eq_bind, Option.some_bind]
      exact ⟨_, rfl⟩
    · rw [if_neg ha]
      by_cases hl : "lost" ∈ w.states.getD MID ∅
      · rw [if_pos hl]
        obtain ⟨w2, hw2, hw2sl, _⟩ := stop_total w f1 hf1 hfl hsl
        rw [hw2]
        simp only [Option.bind_eq_bind, Option.some_bind]
        by_cases ht : now - ai.last_aggro > ai.lost_delay
        · rw [if_pos ht]
          unfold AISystem.writeStates
          rw [get?_eq_some_getD_any w2.states ∅ MID
            (by simp only [MID]; omega)]
          simp only [Option.some_bind]
          obtain ⟨m, hm⟩ := nearestIdleIdx_total T ai.idle_path
            ai.monster_lake_pos hne
          rw [hm]
          simp only [Option.bind_eq_bind, Option.some_bind]
          exact ⟨_, rfl⟩
        · rw [if_neg ht]
          exact ⟨_, rfl⟩
      · rw [if_neg hl]
        exact ⟨_, rfl⟩

/-- C9 (amended): `PhysicsSystem::run` is total by construction, and
`AISystem::run` completes on every well-formed world in which the
monster is materialized in the loaded scene
(`monster_world = current_world`) and the player and monster carry the
components the branches require — Position and Physics on both, and
Graphics on the monster; an entity *beyond* these two that lacks
components is simply skipped by the filtered iteration.  (A missing
Position, Physics, or Graphics component on the player or monster can
instead panic, per the counterexample.) -/
theorem ai_run_total (T : Trig) (now : ℚ) (ai : AISystem) (w : World)
    (p0 p1 : PositionComponent) (f0 f1 : PhysicsComponent)
    (g1 : GraphicsComponent)
    (hsl : 2 ≤ w.states.length) (hpl : 2 ≤ w.positions.length)
    (hfl : 2 ≤ w.physics.length) (hgl : 2 ≤ w.graphics.length)
    (hp0 : w.positions.getD PID none = some p0)
    (hp1 : w.positions.getD MID none = some p1)
    (hf0 : w.physics.getD PID none = some f0)
    (hf1 : w.physics.getD MID none = some f1)
    (hg1 : w.graphics.getD MID none = some g1)
    (hni : ai.next_idle < ai.idle_path.length)
    (hmw : ai.monster_world = w.current_world) :
    (∃ r, AISystem.run T now ai w = some r) ∧
    ∀ dt : ℚ, ∃ w2, PhysicsSystem.run T dt w = w2 := by
  refine ⟨?_, fun dt => ⟨_, rfl⟩⟩
  have hrel : AISystem.reloadMonster ai w = some (ai, w) := by
    unfold AISystem.reloadMonster
    by_cases hc : ai.monster_world = "lake" ∧ w.current_world = "lake"
    · rw [if_pos hc, get?_eq_some_getD _ _ (by simp only [MID]; omega), hp1]
      rfl
    · rw [if_neg hc]
      rfl
  have hsw : AISystem.worldSwitch T now ai w = some (ai, w) := by
    unfold AISystem.worldSwitch
    rw [if_neg (by simp [hmw])]
    rfl
  unfold AISystem.run
  rw [hrel]
  simp only [Option.bind_eq_bind, Option.some_bind]
  rw [hsw]
  simp only [Option.bind_eq_bind, Option.some_bind]
  by_cases hA : ai.awaiting_teleport = true
  · rw [if_pos hA]
    by_cases hT : now - ai.teleport_timer < 5
    · rw [if_pos hT]
      exact ⟨(ai, w), rfl⟩
    · rw [if_neg hT]
      rw [applyTeleport_total ai w f1 hf1 hfl hpl]
      simp only [Option.bind_eq_bind, Option.some_bind]
      have hplT : 2 ≤ (w.positions.set MID (some ⟨ai.teleport_location.1,
          ai.teleport_location.2 - (f1.hitbox.h : ℚ)⟩)).length := by
        simp [List.length_set]
        omega
      have hp1T : (w.positions.set MID (some ⟨ai.teleport_location.1,
          ai.teleport_location.2 - (f1.hitbox.h : ℚ)⟩)).getD MID none =
          some ⟨ai.teleport_location.1,
            ai.teleport_location.2 - (f1.hitbox.h : ℚ)⟩ := by
        rw [List.getD_eq_getElem?_getD,
          List.getElem?_set_self (by simp only [MID]; omega)]
        rfl
      have hp0T : (w.positions.set MID (some ⟨ai.teleport_location.1,
          ai.teleport_location.2 - (f1.hitbox.h : ℚ)⟩)).getD PID none =
          some p0 := by
        rw [List.getD_eq_getElem?_getD,
          List.getElem?_set_ne (by simp only [MID, PID]; omega)]
        rw [List.getD_eq_getElem?_getD] at hp0
        exact hp0
      obtain ⟨ai2, w2, hca, e1, e2, e3, e4, e5, e6, e7⟩ :=
        checkAggro_total T now { ai with awaiting_teleport := false }
          { w with positions := w.positions.set MID (some ⟨ai.teleport_location.1, ai.teleport_location.2 - (f1.hitbox.h : ℚ)⟩) }
          p0 ⟨ai.teleport_location.1,
            ai.teleport_location.2 - (f1.hitbox.h : ℚ)⟩ f0 f1
          hsl hplT hfl hp0T hp1T hf0 hf1
      rw [hca]
      simp only [Option.bind_eq_bind, Option.some_bind]
      exact behave_total T now ai2 w2 p0
        ⟨ai.teleport_location.1, ai.teleport_location.2 - (f1.hitbox.h : ℚ)⟩
        f0 f1 g1
        (by rw [e4]; exact hsl) (by rw [e1]; exact hplT)
        (by rw [e2]; exact hfl) (by rw [e3]; exact hgl)
        (by rw [e1]; exact hp0T) (by rw [e1]; exact hp1T)
        (by rw [e2]; exact hf0) (by rw [e2]; exact hf1)
        (by rw [e3]; exact hg1) (by rw [e7, e6]; exact hni)
  · rw [if_neg hA]
    obtain ⟨ai2, w2, hca, e1, e2, e3, e4, e5, e6, e7⟩ :=
      checkAggro_total T now ai w p0 p1 f0 f1 hsl hpl hfl hp0 hp1 hf0 hf1
    rw [hca]
    simp only [Option.bind_eq_bind, Option.some_bind]
    exact behave_total T now ai2 w2 p0 p1 f0 f1 g1
      (by rw [e4]; exact hsl) (by rw [e1]; exact hpl)
      (by rw [e2]; exact hfl) (by rw [e3]; exact hgl)
      (by rw [e1]; exact hp0) (by rw [e1]; exact hp1)
      (by rw [e2]; exact hf0) (by rw [e2]; exact hf1)
      (by rw [e3]; exact hg1) (by rw [e7, e6]; exact hni)

/-- C9 witness: with both entities carrying Position and Physics and the
monster carrying Graphics, `run` completes on a concrete scene. -/
theorem ai_run_total_witness :
    (2 : Nat) ≤ 2 ∧
    ((∃ r, AISystem.run trig0 0
        (AISystem.mk 0 [(0, 0, 1)] 0 0 0 0 0 "lake" 0 false (0, 0) (0, 0))
        (World.mk "lake" [∅, ∅] [some ⟨0, 0⟩, some ⟨0, 0⟩]
          [some ⟨⟨0, 0, 1, 1⟩, 1, true, ⟨0, 0⟩⟩,
            some ⟨⟨0, 0, 1, 1⟩, 1, true, ⟨0, 0⟩⟩]
          [none, some ⟨0, ⟨0, 0, 1, 1⟩, false⟩] [none, none]
          [none, none]) = some r) ∧
      ∀ dt : ℚ, ∃ w2, PhysicsSystem.run trig0 dt
        (World.mk "lake" [∅, ∅] [some ⟨0, 0⟩, some ⟨0, 0⟩]
          [some ⟨⟨0, 0, 1, 1⟩, 1, true, ⟨0, 0⟩⟩,
            some ⟨⟨0, 0, 1, 1⟩, 1, true, ⟨0, 0⟩⟩]
          [none, some ⟨0, ⟨0, 0, 1, 1⟩, false⟩] [none, none]
          [none, none]) = w2) := by
  refine ⟨by decide, ?_⟩
  exact ai_run_total trig0 0
    (AISystem.mk 0 [(0, 0, 1)] 0 0 0 0 0 "lake" 0 false (0, 0) (0, 0))
    (World.mk "lake" [∅, ∅] [some ⟨0, 0⟩, some ⟨0, 0⟩]
      [some ⟨⟨0, 0, 1, 1⟩, 1, true, ⟨0, 0⟩⟩,
        some ⟨⟨0, 0, 1, 1⟩, 1, true, ⟨0, 0⟩⟩]
      [none, some ⟨0, ⟨0, 0, 1, 1⟩, false⟩] [none, none] [none, none])
    ⟨0, 0⟩ ⟨0, 0⟩ ⟨⟨0, 0, 1, 1⟩, 1, true, ⟨0, 0⟩⟩
    ⟨⟨0, 0, 1, 1⟩, 1, true, ⟨0, 0⟩⟩ ⟨0, ⟨0, 0, 1, 1⟩, false⟩
    (by decide) (by decide) (by decide) (by decide) (by decide) (by decide)
    (by decide) (by decide) (by decide) (by decide) rfl

end Lengine
